import Mathlib

/-!
Verification development for the backup/restore engine of the shop-directory
application (source: `server/backup.ts`).  The TypeScript code is shallowly
embedded: asynchronous effects (network fetches, object-store uploads,
database inserts, the clock) are modelled by explicit environments of pure
functions, the scratch file tree by an association list of paths to file
contents, and thrown JavaScript exceptions by `Except`.  Each definition
mirrors one function of the source file.
-/

namespace Backup

/-- Raw file bytes. -/
abbrev Bytes := List Nat

/-- One shop record.  Only the fields that `backup.ts` touches are named;
`data` stands for all remaining fields, which the backup code copies
verbatim.  The empty string plays the role of a missing (falsy) field. -/
structure Shop where
  id : String
  name : String
  logo : String
  mapImageUrl : String
  data : String
  deriving Repr, DecidableEq

/-- Metadata block of `BackupData` (`backup.ts` lines 21-26). -/
structure BackupMetadata where
  timestamp : String
  version : String
  totalShops : Nat
  backupType : String
  deriving Repr, DecidableEq

/-- The `images` index of `BackupData`: shop id to archive-relative path. -/
structure ImagesIndex where
  logos : List (String × String)
  maps : List (String × String)
  deriving Repr, DecidableEq

/-- The manifest written to `backup-data.json` (`backup.ts` lines 20-32). -/
structure BackupData where
  metadata : BackupMetadata
  shops : List Shop
  images : ImagesIndex
  deriving Repr, DecidableEq

/-- Contents of one file in the scratch tree.  A `json` file stores a
`BackupData` value directly, reflecting that `JSON.parse` inverts
`JSON.stringify` on this shape. -/
inductive FileData where
  | bin : Bytes → FileData
  | json : BackupData → FileData
  | text : String → FileData
  deriving Repr, DecidableEq

/-- A scratch directory tree: files keyed by relative path (most recent
write first) plus the set of directories created so far. -/
structure FS where
  files : List (String × FileData)
  dirs : List String
  deriving Repr, DecidableEq

/-- `fs.writeFile`: a fresh write shadows any earlier write to the path. -/
def fsWrite (fs : FS) (p : String) (d : FileData) : FS :=
  ⟨(p, d) :: fs.files, fs.dirs⟩

/-- `fs.readFile`: the most recent write to the path, if any. -/
def fsRead (fs : FS) (p : String) : Option FileData :=
  fs.files.lookup p

/-- `fs.mkdir`. -/
def fsMkdir (fs : FS) (d : String) : FS :=
  ⟨fs.files, d :: fs.dirs⟩

/-- `directoryExists` (`backup.ts` lines 609-616). -/
def directoryExists (fs : FS) (d : String) : Bool :=
  fs.dirs.contains d

/-- Drop a literal prefix from a character list, or fail. -/
def dropPre : List Char → List Char → Option (List Char)
  | [], s => some s
  | _ :: _, [] => none
  | c :: p, d :: s => if c = d then dropPre p s else none

/-- Drop a literal prefix from a string, or fail. -/
def stripPre (pre s : String) : Option String :=
  (dropPre pre.data s.data).map String.mk

/-- `String.prototype.startsWith`. -/
def jsStartsWith (s pre : String) : Bool :=
  (dropPre pre.data s.data).isSome

/-- `String.prototype.endsWith`. -/
def jsEndsWith (s post : String) : Bool :=
  (dropPre post.data.reverse s.data.reverse).isSome

/-- `String.prototype.toLowerCase`. -/
def jsToLower (s : String) : String :=
  String.mk (s.data.map Char.toLower)

/-- Does `pat` occur anywhere in the character list? -/
def hasSub (pat : List Char) : List Char → Bool
  | [] => (dropPre pat []).isSome
  | d :: t => if (dropPre pat (d :: t)).isSome then true else hasSub pat t

/-- Split a character list at every occurrence of the character `c`. -/
def splitChar (c : Char) : List Char → List (List Char)
  | [] => [[]]
  | d :: t =>
    let r := splitChar c t
    if d = c then [] :: r else (d :: r.headD []) :: r.tail

/-- Join character lists with a separator. -/
def joinSep (sep : List Char) : List (List Char) → List Char
  | [] => []
  | [x] => x
  | x :: xs => x ++ sep ++ joinSep sep xs

/-- The remainder of the list after the first occurrence of `pat`. -/
def afterSub (pat : List Char) : List Char → Option (List Char)
  | [] => dropPre pat []
  | d :: t =>
    match dropPre pat (d :: t) with
    | some r => some r
    | none => afterSub pat t

/-- `fs.readdir`: names of the files sitting directly under `dir`. -/
def readdir (fs : FS) (dir : String) : List String :=
  (fs.files.filterMap (fun e => stripPre (dir ++ "/") e.1)).dedup

/-- An HTTP response as seen by `downloadImage`. -/
structure HttpResponse where
  ok : Bool
  statusText : String
  contentType : Option String
  body : Bytes
  deriving Repr, DecidableEq

/-- Environment of the backup side: the network (`fetch`), the local
static-assets directory, and the clock.  A `none` fetch result models a
thrown network error. -/
structure FetchEnv where
  fetch : String → Option HttpResponse
  localFile : String → Option Bytes
  now : String

/-- Substring test, used for `String.prototype.includes`. -/
def strContains (s pat : String) : Bool :=
  hasSub pat.data s.data

/-- `contentType?.includes(pat)` with optional chaining. -/
def ctHas (ct : Option String) (pat : String) : Bool :=
  match ct with
  | some c => strContains c pat
  | none => false

/-- Node `path.extname`: the suffix of the basename from its last dot,
empty when there is no dot or when the last dot starts the basename. -/
def extname (p : String) : String :=
  let base := (p.data.reverse.takeWhile (fun c => c ≠ '/')).reverse
  let revAfter := base.reverse.takeWhile (fun c => c ≠ '.')
  if revAfter.length = base.length then ""
  else if revAfter.length + 1 = base.length then ""
  else String.mk ('.' :: revAfter.reverse)

/-- File-extension inference of `downloadImage` for fetched images:
content type first, then sniffing the reference string, default `.jpg`. -/
def inferExt (ct : Option String) (url : String) : String :=
  if ctHas ct "png" then ".png"
  else if ctHas ct "gif" then ".gif"
  else if ctHas ct "webp" then ".webp"
  else if strContains url ".png" then ".png"
  else if strContains url ".gif" then ".gif"
  else if strContains url ".webp" then ".webp"
  else ".jpg"

/-- The body of the `try` block of `downloadImage` (`backup.ts` lines
200-262) up to the file write: classify the reference string, fetch the
bytes, and pick an extension.  `Except.error` is a thrown exception,
`Except.ok none` an explicit `return null`. -/
def resolveImage (env : FetchEnv) (imageUrl : String) :
    Except String (Option (String × Bytes)) :=
  if jsStartsWith imageUrl "/objects/" then
    match env.fetch ("http://localhost:5000" ++ imageUrl) with
    | none => .error "fetch failed"
    | some r =>
      if r.ok then .ok (some (inferExt r.contentType imageUrl, r.body))
      else .error ("Failed to fetch object storage image: " ++ r.statusText)
  else if jsStartsWith imageUrl "/" then
    match env.localFile ("client/public/" ++ String.mk (imageUrl.data.drop 1)) with
    | none => .ok none
    | some b =>
      let origExt := jsToLower (extname imageUrl)
      .ok (some (if origExt ≠ "" then origExt else ".jpg", b))
  else if jsStartsWith imageUrl "http" then
    match env.fetch imageUrl with
    | none => .error "fetch failed"
    | some r =>
      if r.ok then .ok (some (inferExt r.contentType imageUrl, r.body))
      else .error ("Failed to fetch external image: " ++ r.statusText)
  else .ok none

/-- `downloadImage` (`backup.ts` lines 200-274): resolve the reference,
write the image under `destDir/filename.ext`, and return the final file
name; the surrounding `catch` turns any thrown error into `null`. -/
def downloadImage (env : FetchEnv) (fs : FS) (imageUrl destDir filename : String) :
    Option String × FS :=
  match resolveImage env imageUrl with
  | .error _ => (none, fs)
  | .ok none => (none, fs)
  | .ok (some (ext, buf)) =>
    let finalFilename := filename ++ ext
    (some finalFilename, fsWrite fs (destDir ++ "/" ++ finalFilename) (.bin buf))

/-- Does `createFullBackup` attempt to download this logo reference
(`if (shop.logo && shop.logo !== 'fa-store')`, line 100)? -/
def attemptsLogo (shop : Shop) : Bool :=
  shop.logo ≠ "" ∧ shop.logo ≠ "fa-store"

/-- Does `createFullBackup` attempt to download this map image
(`if (shop.mapImageUrl)`, line 112)? -/
def attemptsMap (shop : Shop) : Bool :=
  shop.mapImageUrl ≠ ""

/-- The logo half of one iteration of the image loop of
`createFullBackup` (`backup.ts` lines 100-109): download the logo when
it is truthy and not the `fa-store` icon, and on success record its
archive-relative path in the index. -/
def backupLogoStep (env : FetchEnv) (shop : Shop) (acc : ImagesIndex × FS) :
    ImagesIndex × FS :=
  if attemptsLogo shop then
    match downloadImage env acc.2 shop.logo "images/logos" (shop.id ++ "_logo") with
    | (some logoFilename, fs') =>
      ({ acc.1 with logos := (shop.id, "images/logos/" ++ logoFilename) :: acc.1.logos }, fs')
    | (none, fs') => (acc.1, fs')
  else acc

/-- The map half of one iteration of the image loop of
`createFullBackup` (`backup.ts` lines 112-121). -/
def backupMapStep (env : FetchEnv) (shop : Shop) (acc : ImagesIndex × FS) :
    ImagesIndex × FS :=
  if attemptsMap shop then
    match downloadImage env acc.2 shop.mapImageUrl "images/maps" (shop.id ++ "_map") with
    | (some mapFilename, fs') =>
      ({ acc.1 with maps := (shop.id, "images/maps/" ++ mapFilename) :: acc.1.maps }, fs')
    | (none, fs') => (acc.1, fs')
  else acc

/-- The per-shop image loop of `createFullBackup` (`backup.ts` lines
97-126), threading the images index and the scratch tree. -/
def backupShops (env : FetchEnv) : List Shop → ImagesIndex → FS → ImagesIndex × FS
  | [], imgs, fs => (imgs, fs)
  | shop :: rest, imgs, fs =>
    let acc := backupMapStep env shop (backupLogoStep env shop (imgs, fs))
    backupShops env rest acc.1 acc.2

/-- `createFullBackup` (`backup.ts` lines 70-161): build the directory
layout, download the assets, and write the manifest and README.  Returns
the manifest together with the backup directory tree that gets zipped. -/
def createFullBackup (env : FetchEnv) (shops : List Shop) : BackupData × FS :=
  let fs0 : FS := ⟨[], ["images/maps", "images/logos", "images"]⟩
  let loop := backupShops env shops ⟨[], []⟩ fs0
  let backupData : BackupData :=
    { metadata := ⟨env.now, "1.0", shops.length, "full"⟩
      shops := shops
      images := loop.1 }
  let fs1 := fsWrite loop.2 "backup-data.json" (.json backupData)
  let fs2 := fsWrite fs1 "README.md" (.text "# ATM Tiendas Backup")
  (backupData, fs2)

/-- `createDataBackup` (`backup.ts` lines 166-195): manifest only, no
image downloads, `backupType` data-only. -/
def createDataBackup (env : FetchEnv) (shops : List Shop) : BackupData :=
  { metadata := ⟨env.now, "1.0", shops.length, "data-only"⟩
    shops := shops
    images := ⟨[], []⟩ }

/-- Result of `getBackupStats` (`backup.ts` lines 308-332). -/
structure BackupStats where
  totalShops : Nat
  imagesWithLogos : Nat
  imagesWithMaps : Nat
  estimatedSize : String
  deriving Repr, DecidableEq

/-- `getBackupStats`: count shops with a truthy logo other than the
`fa-store` icon and shops with a truthy map image, then estimate the
size from the constants 0.1, 0.2 and 0.5 (MB per shop, logo and map). -/
def getBackupStats (shops : List Shop) : BackupStats :=
  let imagesWithLogos := (shops.filter (fun s => s.logo ≠ "" ∧ s.logo ≠ "fa-store")).length
  let imagesWithMaps := (shops.filter (fun s => s.mapImageUrl ≠ "")).length
  let estimatedSize : ℤ :=
    round ((shops.length : ℚ) * (1 / 10) + (imagesWithLogos : ℚ) * (1 / 5)
      + (imagesWithMaps : ℚ) * (1 / 2))
  { totalShops := shops.length
    imagesWithLogos := imagesWithLogos
    imagesWithMaps := imagesWithMaps
    estimatedSize :=
      if estimatedSize > 1 then toString estimatedSize ++ "MB"
      else toString (estimatedSize * 1024) ++ "KB" }

/-- One entry of an uploaded ZIP archive as surfaced by `yauzl`.
`streamErr` models `openReadStream` calling back with an error,
`streamNull` a callback with a null stream, `writeErr` a failing write
stream. -/
structure ZipEntry where
  fileName : String
  streamErr : Bool
  streamNull : Bool
  writeErr : Bool
  content : FileData
  deriving Repr, DecidableEq

/-- Node `path.dirname`: everything before the last slash. -/
def dirnameOf (p : String) : String :=
  let parts := splitChar '/' p.data
  if parts.length ≤ 1 then "." else String.mk (joinSep ['/'] parts.dropLast)

/-- Trailing-slash removal, for directory entries of an archive. -/
def dropTrailingSlash (p : String) : String :=
  String.mk p.data.dropLast

/-- The `on entry` loop of `extractZipFile` (`backup.ts` lines 409-444):
directory entries are created, a null read stream skips the entry, a
stream error or write error rejects the whole extraction promise. -/
def extractLoop : List ZipEntry → FS → Except String FS
  | [], fs => .ok fs
  | e :: rest, fs =>
    if jsEndsWith e.fileName "/" then
      extractLoop rest (fsMkdir fs (dropTrailingSlash e.fileName))
    else if e.streamErr then
      .error "openReadStream error"
    else if e.streamNull then
      extractLoop rest fs
    else
      let fs1 := fsMkdir fs (dirnameOf e.fileName)
      if e.writeErr then .error "write stream error"
      else extractLoop rest (fsWrite fs1 e.fileName e.content)

/-- `extractZipFile` (`backup.ts` lines 394-453): make the scratch
directory, open the archive (failure rejects), then run the entry loop. -/
def extractZipFile (openErr : Bool) (entries : List ZipEntry) : Except String FS :=
  if openErr then .error "Failed to open ZIP file"
  else extractLoop entries ⟨[], []⟩

/-- Environment of the object-store upload capability: the k-th call to
`getObjectEntityUploadURL` returns `uploadURL k`, and the k-th `PUT`
succeeds iff `uploadOk k`. -/
structure UploadEnv where
  uploadURL : Nat → String
  uploadOk : Nat → Bool

/-- Environment of the record store on restore: the k-th `createShop`
call succeeds iff `insertOk k`, assigning the fresh id `freshId k`. -/
structure InsertEnv where
  insertOk : Nat → Bool
  freshId : Nat → String

/-- The pathname component of a URL (after scheme and host, before the
query), as computed by `new URL(u).pathname`. -/
def urlPathname (u : String) : String :=
  let rest := (afterSub ("://").data u.data).getD []
  let noQuery := rest.takeWhile (fun c => c ≠ '?')
  let noFrag := noQuery.takeWhile (fun c => c ≠ '#')
  let path := noFrag.dropWhile (fun c => c ≠ '/')
  if path.isEmpty then "/" else String.mk path

/-- `extractObjectPathFromUrl` (`backup.ts` lines 597-604): re-derive the
stable object reference from the signed upload URL by splitting its
pathname into bucket and object name and keeping the last segment. -/
def extractObjectPathFromUrl (uploadUrl : String) : String :=
  let pathParts := splitChar '/' (urlPathname uploadUrl).data
  let objectName := joinSep ['/'] (pathParts.drop 2)
  "/objects/uploads/" ++ String.mk ((splitChar '/' objectName).getLastD [])

/-- One `PUT` issued against a signed upload URL. -/
structure UploadRequest where
  url : String
  body : FileData
  contentType : String
  deriving Repr, DecidableEq

/-- Accumulator of the two upload loops: per-directory upload count, the
path-to-reference mapping, the error strings, the log of issued `PUT`
requests, and the index of the next `getObjectEntityUploadURL` call. -/
structure UploadsAcc where
  uploaded : Nat
  imageMapping : List (String × String)
  errors : List String
  requests : List UploadRequest
  k : Nat
  deriving Repr, DecidableEq

/-- One directory-upload loop of `uploadImagesFromBackup` (`backup.ts`
lines 488-513 for logos, 520-545 for maps): per file, request a signed
URL, read the file, `PUT` it, and either record the mapping or append an
error and continue. -/
def uploadLoop (env : UploadEnv) (fs : FS) (dir kindName kindDir : String) :
    List String → UploadsAcc → UploadsAcc
  | [], acc => acc
  | f :: rest, acc =>
    let uploadUrl := env.uploadURL acc.k
    match fsRead fs (dir ++ "/" ++ f) with
    | none =>
      uploadLoop env fs dir kindName kindDir rest
        { acc with
          errors := acc.errors ++ ["Error uploading " ++ kindName ++ " " ++ f ++ ": read failed"]
          k := acc.k + 1 }
    | some content =>
      if env.uploadOk acc.k then
        uploadLoop env fs dir kindName kindDir rest
          { acc with
            uploaded := acc.uploaded + 1
            imageMapping := acc.imageMapping ++ [(kindDir ++ f, extractObjectPathFromUrl uploadUrl)]
            requests := acc.requests ++ [⟨uploadUrl, content, "image/jpeg"⟩]
            k := acc.k + 1 }
      else
        uploadLoop env fs dir kindName kindDir rest
          { acc with
            errors := acc.errors ++ ["Failed to upload " ++ kindName ++ ": " ++ f]
            requests := acc.requests ++ [⟨uploadUrl, content, "image/jpeg"⟩]
            k := acc.k + 1 }

/-- Result of `uploadImagesFromBackup` (`backup.ts` lines 471-549),
extended with the log of issued requests. -/
structure UploadImagesResult where
  logosUploaded : Nat
  mapsUploaded : Nat
  imageMapping : List (String × String)
  errors : List String
  requests : List UploadRequest
  deriving Repr, DecidableEq

/-- `uploadImagesFromBackup`: upload every file found under
`images/logos` and then `images/maps`, skipping a directory that does
not exist, accumulating the mapping and the errors. -/
def uploadImagesFromBackup (env : UploadEnv) (fs : FS) : UploadImagesResult :=
  let accL : UploadsAcc :=
    if directoryExists fs "images/logos" then
      uploadLoop env fs "images/logos" "logo" "images/logos/"
        (readdir fs "images/logos") ⟨0, [], [], [], 0⟩
    else ⟨0, [], [], [], 0⟩
  let accM : UploadsAcc :=
    if directoryExists fs "images/maps" then
      uploadLoop env fs "images/maps" "map" "images/maps/"
        (readdir fs "images/maps") ⟨0, accL.imageMapping, accL.errors, accL.requests, accL.k⟩
    else ⟨0, accL.imageMapping, accL.errors, accL.requests, accL.k⟩
  ⟨accL.uploaded, accM.uploaded, accM.imageMapping, accM.errors, accM.requests⟩

/-- The logo half of one iteration of `updateShopImageUrls`
(`backup.ts` lines 556-562): overwrite the logo reference when the
indexed path has a mapping entry. -/
def updateShopLogo (backupData : BackupData) (imageMapping : List (String × String))
    (shop : Shop) : Shop :=
  if shop.id ≠ "" then
    match backupData.images.logos.lookup shop.id with
    | some oldLogoPath =>
      if oldLogoPath ≠ "" then
        match imageMapping.lookup oldLogoPath with
        | some newRef => if newRef ≠ "" then { shop with logo := newRef } else shop
        | none => shop
      else shop
    | none => shop
  else shop

/-- The map half of one iteration of `updateShopImageUrls`
(`backup.ts` lines 564-570). -/
def updateShopMap (backupData : BackupData) (imageMapping : List (String × String))
    (shop : Shop) : Shop :=
  if shop.id ≠ "" then
    match backupData.images.maps.lookup shop.id with
    | some oldMapPath =>
      if oldMapPath ≠ "" then
        match imageMapping.lookup oldMapPath with
        | some newRef => if newRef ≠ "" then { shop with mapImageUrl := newRef } else shop
        | none => shop
      else shop
    | none => shop
  else shop

/-- `updateShopImageUrls` (`backup.ts` lines 554-572): rewrite each
record whose indexed asset path received a new stable reference; records
whose asset has no mapping entry keep their original reference. -/
def updateShopImageUrls (backupData : BackupData) (imageMapping : List (String × String)) :
    List Shop :=
  backupData.shops.map (fun shop =>
    updateShopMap backupData imageMapping (updateShopLogo backupData imageMapping shop))

/-- Strip the original record id before insertion: the destructuring at
`backup.ts` line 583 removes `id` and keeps every other field. -/
def stripId (shop : Shop) : Shop :=
  { shop with id := "" }

/-- `storage.createShop` as seen from the restore loop: a fresh identity
is assigned on success. -/
def createShopModel (env : InsertEnv) (k : Nat) (shopData : Shop) : Shop :=
  { shopData with id := env.freshId k }

/-- `restoreShopsToDatabase` (`backup.ts` lines 577-592): insert each
record with its id stripped; a per-record failure is written to the
console log and the loop continues.  Returns the restored count, the
inserted records in order, and the console log. -/
def restoreShopsToDatabase (env : InsertEnv) : List Shop → Nat → Nat × List Shop × List String
  | [], _ => (0, [], [])
  | shop :: rest, k =>
    let tail := restoreShopsToDatabase env rest (k + 1)
    if env.insertOk k then
      (tail.1 + 1, createShopModel env k (stripId shop) :: tail.2.1, tail.2.2)
    else
      (tail.1, tail.2.1, ("Failed to restore shop " ++ shop.name) :: tail.2.2)

/-- `cleanupDirectory` (`backup.ts` lines 621-642) at the level of the
scratch-directory presence flag: an existing directory is removed, an
already-removed one is left alone without raising. -/
def cleanupDirectory (present : Bool) : Bool :=
  if present then false else present

/-- The body of `cleanupFile` before its `catch`: `unlink` raises on a
missing file. -/
def cleanupFileTry (present : Bool) : Except String Bool :=
  if present then .ok false else .error "ENOENT"

/-- `cleanupFile` (`backup.ts` lines 647-653): remove the file; any error
is logged and swallowed. -/
def cleanupFile (present : Bool) : Bool × Option String :=
  match cleanupFileTry present with
  | .ok b => (b, none)
  | .error e => (present, some ("File cleanup error: " ++ e))

/-- Presence flags of the two invocation-scoped artifacts: the scratch
extraction directory and the uploaded archive file. -/
structure SysState where
  extractDirPresent : Bool
  zipFilePresent : Bool
  deriving Repr, DecidableEq

/-- Environment of one `restoreFromZip` run: the outcome of the
extraction step, the JSON parser for non-manifest file contents, the
upload capability and the record store. -/
structure RestoreEnv where
  extractResult : Except String FS
  parseOther : FileData → Option BackupData
  upload : UploadEnv
  insert : InsertEnv

/-- `parseBackupData` (`backup.ts` lines 458-466): read
`backup-data.json` and parse it, with `null` on a missing file or a
parse failure. -/
def parseBackupData (env : RestoreEnv) (fs : FS) : Option BackupData :=
  match fsRead fs "backup-data.json" with
  | none => none
  | some (FileData.json bd) => some bd
  | some other => env.parseOther other

/-- `RestoreResult.stats` (`backup.ts` lines 37-42). -/
structure RestoreStats where
  shopsRestored : Nat
  logosRestored : Nat
  mapsRestored : Nat
  errors : List String
  deriving Repr, DecidableEq

/-- `RestoreResult` (`backup.ts` lines 34-43). -/
structure RestoreResult where
  success : Bool
  message : String
  stats : RestoreStats
  deriving Repr, DecidableEq

/-- Everything observable about one `restoreFromZip` run: the returned
result, the final presence of the scratch artifacts, the records
inserted into the database, and the console log of the insert loop. -/
structure RestoreRun where
  result : RestoreResult
  sys : SysState
  db : List Shop
  consoleLogs : List String
  deriving Repr, DecidableEq

/-- `restoreFromZip` (`backup.ts` lines 337-389): extract, parse the
manifest (a missing or corrupt manifest throws), upload the images,
rewrite the records, insert them; the `catch` turns a thrown error into
a failure result, and the `finally` removes the scratch directory and
the uploaded archive in every case. -/
def restoreFromZip (env : RestoreEnv) : RestoreRun :=
  let attempt : Except String (RestoreStats × List Shop × List String) :=
    match env.extractResult with
    | .error e => .error e
    | .ok fs =>
      match parseBackupData env fs with
      | none => .error "Invalid backup file: backup-data.json not found or corrupted"
      | some backupData =>
        let imageResults := uploadImagesFromBackup env.upload fs
        let shops2 := updateShopImageUrls backupData imageResults.imageMapping
        let inserted := restoreShopsToDatabase env.insert shops2 0
        .ok (⟨inserted.1, imageResults.logosUploaded, imageResults.mapsUploaded,
              imageResults.errors⟩, inserted.2.1, inserted.2.2)
  let sysMid : SysState := ⟨true, true⟩
  let sysFinal : SysState :=
    ⟨cleanupDirectory sysMid.extractDirPresent, (cleanupFile sysMid.zipFilePresent).1⟩
  match attempt with
  | .ok (stats, db, logs) =>
    ⟨⟨true,
      "Successfully restored " ++ toString stats.shopsRestored ++ " shops with "
        ++ toString stats.logosRestored ++ " logos and "
        ++ toString stats.mapsRestored ++ " maps",
      stats⟩, sysFinal, db, logs⟩
  | .error msg =>
    ⟨⟨false, msg, ⟨0, 0, 0, [msg]⟩⟩, sysFinal, [], []⟩

/-! ### Derived notions and concrete instances used by the theorems -/

/-- Did `resolveImage` produce an asset for this reference? -/
def resolveOk (env : FetchEnv) (url : String) : Bool :=
  match resolveImage env url with
  | .ok (some _) => true
  | _ => false

/-- The extension chosen by a successful `resolveImage`. -/
def resolvedExt (env : FetchEnv) (url : String) : String :=
  match resolveImage env url with
  | .ok (some (ext, _)) => ext
  | _ => ""

/-- The bytes produced by a successful `resolveImage`. -/
def resolvedBuf (env : FetchEnv) (url : String) : Bytes :=
  match resolveImage env url with
  | .ok (some (_, buf)) => buf
  | _ => []

/-- The archive file name of a shop's backed-up logo. -/
def logoFilename (env : FetchEnv) (shop : Shop) : String :=
  shop.id ++ "_logo" ++ resolvedExt env shop.logo

/-- The archive file name of a shop's backed-up map image. -/
def mapFilename (env : FetchEnv) (shop : Shop) : String :=
  shop.id ++ "_map" ++ resolvedExt env shop.mapImageUrl

/-- The `assetIndex` entry contributed by one shop's logo, if any. -/
def logoEntry (env : FetchEnv) (shop : Shop) : Option (String × String) :=
  if attemptsLogo shop ∧ resolveOk env shop.logo then
    some (shop.id, "images/logos/" ++ logoFilename env shop)
  else none

/-- The `assetIndex` entry contributed by one shop's map image, if any. -/
def mapEntry (env : FetchEnv) (shop : Shop) : Option (String × String) :=
  if attemptsMap shop ∧ resolveOk env shop.mapImageUrl then
    some (shop.id, "images/maps/" ++ mapFilename env shop)
  else none

/-- A reference the specification calls non-symbolic: it begins with the
private-store prefix, a URL scheme, or a slash. -/
def specNonSymbolic (r : String) : Bool :=
  jsStartsWith r "/objects/" || jsStartsWith r "http" || jsStartsWith r "/"

/-- A tiny valid manifest used by concrete extraction runs. -/
def tinyManifest : BackupData :=
  ⟨⟨"t", "1.0", 0, "full"⟩, [], ⟨[], []⟩⟩

/-- A two-record manifest with no images, for concrete restore runs. -/
def c2BD : BackupData :=
  ⟨⟨"t", "1.0", 2, "full"⟩,
    [⟨"a", "Shop A", "", "", "da"⟩, ⟨"b", "Shop B", "", "", "db"⟩], ⟨[], []⟩⟩

/-- The extracted tree holding only that manifest. -/
def c2FS : FS := ⟨[("backup-data.json", .json c2BD)], []⟩

/-- A concrete restore environment whose first record insertion fails:
the extraction yields `c2FS`, the first `createShop` call throws and the
second succeeds. -/
def c2Env : RestoreEnv :=
  { extractResult := .ok c2FS
    parseOther := fun _ => none
    upload := ⟨fun _ => "https://h/b/o", fun _ => true⟩
    insert := ⟨fun k => k != 0, fun k => "new" ++ toString k⟩ }

/-- A default record, for indexed access. -/
def dfltShop : Shop := ⟨"", "", "", "", ""⟩

/-- A one-record set with a store-resolved logo and an external map, for
the concrete round-trip run. -/
def c1Shops : List Shop :=
  [⟨"a", "Shop A", "/objects/old-logo.png", "http://img.example/map.png", "d"⟩]

/-- A fetch environment where every network fetch answers with a small
png body. -/
def c1FetchEnv : FetchEnv :=
  ⟨fun _ => some ⟨true, "OK", some "image/png", [9]⟩, fun _ => none, "t"⟩

/-- An upload capability issuing one fixed signed URL, always
succeeding. -/
def c1UploadEnv : UploadEnv := ⟨fun _ => "https://st.example/b/obj77", fun _ => true⟩

/-- A record store whose inserts always succeed, assigning a fresh id. -/
def c1InsertEnv : InsertEnv := ⟨fun _ => true, fun _ => "fresh"⟩

/-- The full round trip: run a full backup of the record set, feed the
resulting archive tree to the restore pipeline (the zip container layer,
which is external, is taken as the identity on the tree). -/
def roundtripRun (fenv : FetchEnv) (uenv : UploadEnv) (ienv : InsertEnv)
    (pO : FileData → Option BackupData) (shops : List Shop) : RestoreRun :=
  restoreFromZip ⟨.ok (createFullBackup fenv shops).2, pO, uenv, ienv⟩

/-- A one-record manifest whose record has a backed-up logo, for the
concrete single-upload-failure run. -/
def c4BD : BackupData :=
  ⟨⟨"t", "1.0", 1, "full"⟩, [⟨"a", "Shop A", "orig-logo", "", ""⟩],
    ⟨[("a", "images/logos/a_logo.png")], []⟩⟩

/-- The extracted tree of that archive: the manifest and one logo file. -/
def c4FS : FS :=
  ⟨[("backup-data.json", .json c4BD), ("images/logos/a_logo.png", .bin [1])],
    ["images/logos"]⟩

/-- A restore environment over `c4FS` whose first (and only) asset upload
fails while every insertion succeeds. -/
def c4Env : RestoreEnv :=
  { extractResult := .ok c4FS
    parseOther := fun _ => none
    upload := ⟨fun _ => "https://h/b/u", fun k => k != 0⟩
    insert := ⟨fun _ => true, fun k => "gen" ++ toString k⟩ }

/-- The number of signed-URL requests issued by the logos upload loop
(one per file, failures included): the maps loop's upload counter starts
here. -/
def logosCount (fs : FS) : Nat :=
  if directoryExists fs "images/logos" = true then (readdir fs "images/logos").length else 0

/-- A one-record manifest whose record has a backed-up map image, for
the concrete single-map-upload-failure run. -/
def c4mBD : BackupData :=
  ⟨⟨"t", "1.0", 1, "full"⟩, [⟨"a", "Shop A", "", "orig-map", ""⟩],
    ⟨[], [("a", "images/maps/a_map.png")]⟩⟩

/-- The extracted tree of that archive: the manifest and one map file. -/
def c4mFS : FS :=
  ⟨[("backup-data.json", .json c4mBD), ("images/maps/a_map.png", .bin [2])],
    ["images/maps"]⟩

/-- A restore environment over `c4mFS` whose first (and only) asset
upload, a map image, fails while every insertion succeeds. -/
def c4mEnv : RestoreEnv :=
  { extractResult := .ok c4mFS
    parseOther := fun _ => none
    upload := ⟨fun _ => "https://h/b/u2", fun k => k != 0⟩
    insert := ⟨fun _ => true, fun k => "gen" ++ toString k⟩ }

/-! ### Lemmas about the string and lookup helpers -/

theorem strMk_data (s : String) : String.mk s.data = s := rfl

theorem dropPre_append (p r : List Char) : dropPre p (p ++ r) = some r := by
  induction p with
  | nil => rfl
  | cons c p ih => simp [dropPre, ih]

theorem dropPre_eq_some {p s r : List Char} (h : dropPre p s = some r) : s = p ++ r := by
  induction p generalizing s with
  | nil =>
    simp only [dropPre, Option.some.injEq] at h
    simp [h]
  | cons c p ih =>
    cases s with
    | nil => simp [dropPre] at h
    | cons d t =>
      by_cases hc : c = d
      · subst hc
        simp only [dropPre, if_pos rfl] at h
        simp [ih h]
      · simp [dropPre, hc] at h

theorem stripPre_append (pre r : String) : stripPre pre (pre ++ r) = some r := by
  simp [stripPre, String.data_append, dropPre_append, strMk_data]

theorem stripPre_eq_some {pre s r : String} (h : stripPre pre s = some r) : s = pre ++ r := by
  unfold stripPre at h
  cases hd : dropPre pre.data s.data with
  | none => rw [hd] at h; simp at h
  | some l =>
    rw [hd] at h
    have h2 : String.mk l = r := Option.some.inj h
    apply String.ext
    rw [String.data_append, dropPre_eq_some hd]
    congr 1
    rw [← h2]

theorem strAppend_left_cancel {a b c : String} (h : a ++ b = a ++ c) : b = c := by
  apply String.ext
  have h2 : a.data ++ b.data = a.data ++ c.data := by
    rw [← String.data_append, ← String.data_append, h]
  exact List.append_cancel_left h2

theorem strAppend_ne_empty (a b : String) (h : a ≠ "") : a ++ b ≠ "" := by
  intro hc
  apply h
  apply String.ext
  have h2 := congrArg String.data hc
  rw [String.data_append] at h2
  have h3 : a.data = [] := (List.append_eq_nil.mp h2).1
  simpa using h3

theorem jsStartsWith_append (p r : String) : jsStartsWith (p ++ r) p = true := by
  simp [jsStartsWith, String.data_append, dropPre_append]

theorem jsStartsWith_iff {s p : String} : jsStartsWith s p = true ↔ ∃ r, s = p ++ r := by
  constructor
  · intro h
    unfold jsStartsWith at h
    cases hd : dropPre p.data s.data with
    | none => rw [hd] at h; simp at h
    | some l =>
      refine ⟨String.mk l, ?_⟩
      apply String.ext
      rw [String.data_append]
      exact dropPre_eq_some hd
  · rintro ⟨r, rfl⟩
    exact jsStartsWith_append p r

theorem logosKey_ne_mapsKey (f g : String) : "images/logos/" ++ f ≠ "images/maps/" ++ g := by
  intro h
  have h2 := congrArg (fun s => dropPre ("images/l").data s.data) h
  simp only [String.data_append] at h2
  rw [show dropPre ("images/l").data (("images/logos/").data ++ f.data)
        = some (("ogos/").data ++ f.data) from rfl] at h2
  rw [show dropPre ("images/l").data (("images/maps/").data ++ g.data) = none from rfl] at h2
  exact Option.noConfusion h2

theorem mem_of_lookup_eq_some {β : Type} {l : List (String × β)} {k : String} {v : β}
    (h : l.lookup k = some v) : (k, v) ∈ l := by
  rcases List.lookup_eq_some_iff.mp h with ⟨l₁, l₂, rfl, h1⟩
  simp

theorem exists_lookup_of_mem {β : Type} {l : List (String × β)} {k : String} {v : β}
    (h : (k, v) ∈ l) : ∃ w, l.lookup k = some w := by
  have h2 : (l.lookup k).isSome := List.lookup_isSome_iff.mpr ⟨(k, v), h, by simp⟩
  exact Option.isSome_iff_exists.mp h2

theorem lookup_of_mem_nodup {β : Type} {l : List (String × β)} {k : String} {v : β}
    (hm : (k, v) ∈ l) (hn : (l.map Prod.fst).Nodup) : l.lookup k = some v := by
  induction l with
  | nil => simp at hm
  | cons p rest ih =>
    obtain ⟨k', v'⟩ := p
    rw [List.map_cons, List.nodup_cons] at hn
    rcases List.mem_cons.mp hm with he | hm2
    · injection he with h1 h2
      subst h1; subst h2
      simp
    · have hk : k ≠ k' := by
        intro he
        have hmem : k ∈ rest.map Prod.fst := List.mem_map_of_mem Prod.fst hm2
        exact hn.1 (he ▸ hmem)
      rw [List.lookup_cons]
      have hkb : (k == k') = false := by simpa using hk
      rw [hkb]
      exact ih hm2 hn.2

theorem lookup_eq_none_of_not_mem_keys {β : Type} {l : List (String × β)} {k : String}
    (h : k ∉ l.map Prod.fst) : l.lookup k = none := by
  rw [List.lookup_eq_none_iff]
  intro p hp
  simp only [bne_iff_ne, ne_eq]
  intro he
  exact h (he ▸ List.mem_map_of_mem Prod.fst hp)

/-! ### Claim theorems -/

/-- C8: for every record set, the data-only backup fetches no assets (its
result depends on the environment only through the clock), and its
manifest has `totalShops` equal to the number of records, an empty images
index on both sides, and `backupType` data-only. -/
theorem C8_dataOnlyBackup_manifest (env : FetchEnv) (shops : List Shop) :
    (createDataBackup env shops).metadata.totalShops = shops.length ∧
    (createDataBackup env shops).metadata.backupType = "data-only" ∧
    (createDataBackup env shops).images.logos = [] ∧
    (createDataBackup env shops).images.maps = [] ∧
    (createDataBackup env shops).shops = shops ∧
    ∀ env' : FetchEnv, env'.now = env.now →
      createDataBackup env' shops = createDataBackup env shops :=
  ⟨rfl, rfl, rfl, rfl, rfl, fun _ h => by simp [createDataBackup, h]⟩

/-- C9 counterexample: a shop whose logo is the symbolic icon identifier
`fa-bank` is counted by `getBackupStats.imagesWithLogos`, although the
record set contains no record with a non-symbolic primary reference; the
stats counter therefore does not count non-symbolic references, refuting
the claim at this input. -/
theorem C9_stats_counts_symbolic_refs :
    (getBackupStats [⟨"1", "n", "fa-bank", "", ""⟩]).imagesWithLogos = 1 ∧
    (([(⟨"1", "n", "fa-bank", "", ""⟩ : Shop)].filter
      (fun s => specNonSymbolic s.logo)).length) = 0 :=
  ⟨rfl, rfl⟩

/-- C9 amended: `getBackupStats` fetches nothing and counts exactly the
records with a truthy primary reference other than the literal
`fa-store` (the same predicate under which `createFullBackup` attempts a
logo download, symbolic references included) and exactly the records
with a truthy secondary reference; the size estimate is the rounded
weighted sum with weights 0.1, 0.2 and 0.5 MB, printed in MB when above
1 and in KB otherwise. -/
theorem C9_stats_amended (shops : List Shop) :
    (getBackupStats shops).totalShops = shops.length ∧
    (getBackupStats shops).imagesWithLogos = (shops.filter (fun s => attemptsLogo s)).length ∧
    (getBackupStats shops).imagesWithMaps = (shops.filter (fun s => attemptsMap s)).length ∧
    (getBackupStats shops).estimatedSize =
      (if 1 < round (((getBackupStats shops).totalShops : ℚ) * (1 / 10)
          + (((getBackupStats shops).imagesWithLogos : ℚ)) * (1 / 5)
          + (((getBackupStats shops).imagesWithMaps : ℚ)) * (1 / 2)) then
        toString (round (((getBackupStats shops).totalShops : ℚ) * (1 / 10)
          + (((getBackupStats shops).imagesWithLogos : ℚ)) * (1 / 5)
          + (((getBackupStats shops).imagesWithMaps : ℚ)) * (1 / 2))) ++ "MB"
      else
        toString ((round (((getBackupStats shops).totalShops : ℚ) * (1 / 10)
          + (((getBackupStats shops).imagesWithLogos : ℚ)) * (1 / 5)
          + (((getBackupStats shops).imagesWithMaps : ℚ)) * (1 / 2))) * 1024) ++ "KB") :=
  ⟨rfl, rfl, rfl, rfl⟩

/-- C6: the asset fetcher is total at its boundary: on a symbolic
reference, a failed or non-success store fetch, a missing local file, or
a failed or non-success external fetch it returns null and leaves the
tree unchanged, and every exception thrown inside its body is caught
(an error result of the body never escapes `downloadImage`). -/
theorem C6_downloadImage_total_on_failure (env : FetchEnv) (fs : FS)
    (imageUrl destDir filename : String) :
    (jsStartsWith imageUrl "/" = false → jsStartsWith imageUrl "http" = false →
      downloadImage env fs imageUrl destDir filename = (none, fs)) ∧
    (jsStartsWith imageUrl "/objects/" = true →
      (env.fetch ("http://localhost:5000" ++ imageUrl) = none ∨
        ∃ r, env.fetch ("http://localhost:5000" ++ imageUrl) = some r ∧ r.ok = false) →
      downloadImage env fs imageUrl destDir filename = (none, fs)) ∧
    (jsStartsWith imageUrl "/objects/" = false → jsStartsWith imageUrl "/" = true →
      env.localFile ("client/public/" ++ String.mk (imageUrl.data.drop 1)) = none →
      downloadImage env fs imageUrl destDir filename = (none, fs)) ∧
    (jsStartsWith imageUrl "/" = false → jsStartsWith imageUrl "http" = true →
      (env.fetch imageUrl = none ∨ ∃ r, env.fetch imageUrl = some r ∧ r.ok = false) →
      downloadImage env fs imageUrl destDir filename = (none, fs)) ∧
    (∀ e, resolveImage env imageUrl = .error e →
      downloadImage env fs imageUrl destDir filename = (none, fs)) := by
  have hobj_slash : jsStartsWith imageUrl "/objects/" = true → jsStartsWith imageUrl "/" = true := by
    intro h
    rcases jsStartsWith_iff.mp h with ⟨r, rfl⟩
    rw [show ("/objects/" : String) ++ r = "/" ++ ("objects/" ++ r) from rfl]
    exact jsStartsWith_append "/" ("objects/" ++ r)
  refine ⟨?_, ?_, ?_, ?_, ?_⟩
  · intro h1 h2
    have h3 : jsStartsWith imageUrl "/objects/" = false := by
      cases h4 : jsStartsWith imageUrl "/objects/" with
      | false => rfl
      | true => rw [hobj_slash h4] at h1; exact absurd h1 (by simp)
    simp [downloadImage, resolveImage, h1, h2, h3]
  · intro h1 h2
    rcases h2 with h2 | ⟨r, h2, h3⟩
    · simp [downloadImage, resolveImage, h1, h2]
    · simp [downloadImage, resolveImage, h1, h2, h3]
  · intro h1 h2 h3
    rw [List.drop_one] at h3
    simp [downloadImage, resolveImage, h1, h2, h3]
  · intro h1 h2 h3
    have h4 : jsStartsWith imageUrl "/objects/" = false := by
      cases h5 : jsStartsWith imageUrl "/objects/" with
      | false => rfl
      | true => rw [hobj_slash h5] at h1; exact absurd h1 (by simp)
    rcases h3 with h3 | ⟨r, h3, h5⟩
    · simp [downloadImage, resolveImage, h1, h2, h3, h4]
    · simp [downloadImage, resolveImage, h1, h2, h3, h4, h5]
  · intro e he
    simp [downloadImage, he]

/-- C6 witness: the symbolic reference `fa-store`, a store reference that
404s, and a missing local file all make the fetcher produce null on a
concrete environment. -/
theorem C6_downloadImage_total_on_failure_witness :
    (downloadImage ⟨fun _ => none, fun _ => none, "t"⟩ ⟨[], []⟩ "fa-bank" "images/logos" "1_logo"
        = (none, (⟨[], []⟩ : FS))) ∧
    (downloadImage ⟨fun _ => some ⟨false, "Not Found", none, []⟩, fun _ => none, "t"⟩ ⟨[], []⟩
        "/objects/x.png" "images/logos" "1_logo" = (none, (⟨[], []⟩ : FS))) ∧
    (downloadImage ⟨fun _ => none, fun _ => none, "t"⟩ ⟨[], []⟩ "/missing.png" "images/logos"
        "1_logo" = (none, (⟨[], []⟩ : FS))) :=
  ⟨(C6_downloadImage_total_on_failure ⟨fun _ => none, fun _ => none, "t"⟩ ⟨[], []⟩
      "fa-bank" "images/logos" "1_logo").1 (by decide) (by decide),
   (C6_downloadImage_total_on_failure ⟨fun _ => some ⟨false, "Not Found", none, []⟩,
      fun _ => none, "t"⟩ ⟨[], []⟩ "/objects/x.png" "images/logos" "1_logo").2.1 (by decide)
      (Or.inr ⟨⟨false, "Not Found", none, []⟩, rfl, rfl⟩),
   (C6_downloadImage_total_on_failure ⟨fun _ => none, fun _ => none, "t"⟩ ⟨[], []⟩
      "/missing.png" "images/logos" "1_logo").2.2.1 (by decide) (by decide) rfl⟩

/-- C8 witness: the theorem instantiated at a concrete environment and
record set, with the clock-equality hypothesis discharged. -/
theorem C8_dataOnlyBackup_manifest_witness :
    createDataBackup ⟨fun _ => none, fun _ => none, "t"⟩ [⟨"1", "n", "", "", ""⟩]
      = createDataBackup ⟨fun _ => none, fun _ => none, "t"⟩ [⟨"1", "n", "", "", ""⟩] :=
  (C8_dataOnlyBackup_manifest ⟨fun _ => none, fun _ => none, "t"⟩
    [⟨"1", "n", "", "", ""⟩]).2.2.2.2.2 ⟨fun _ => none, fun _ => none, "t"⟩ rfl

/-- Requests appended by one upload loop all carry the constant
`image/jpeg` content type. -/
theorem uploadLoop_requests (env : UploadEnv) (fs : FS) (dir kindName kindDir : String) :
    ∀ (fl : List String) (acc : UploadsAcc) (r : UploadRequest),
      r ∈ (uploadLoop env fs dir kindName kindDir fl acc).requests →
      r ∈ acc.requests ∨ r.contentType = "image/jpeg" := by
  intro fl
  induction fl with
  | nil => intro acc r hr; exact Or.inl hr
  | cons f rest ih =>
    intro acc r hr
    rw [uploadLoop] at hr
    cases hfd : fsRead fs (dir ++ "/" ++ f) with
    | none =>
      rw [hfd] at hr
      dsimp only at hr
      rcases ih _ r hr with h | h
      · exact Or.inl h
      · exact Or.inr h
    | some content =>
      rw [hfd] at hr
      dsimp only at hr
      by_cases hok : env.uploadOk acc.k
      · rw [if_pos hok] at hr
        rcases ih _ r hr with hmem | hct
        · rcases List.mem_append.mp hmem with hmem | hmem
          · exact Or.inl hmem
          · simp only [List.mem_singleton] at hmem
            subst hmem
            exact Or.inr rfl
        · exact Or.inr hct
      · rw [if_neg hok] at hr
        rcases ih _ r hr with hmem | hct
        · rcases List.mem_append.mp hmem with hmem | hmem
          · exact Or.inl hmem
          · simp only [List.mem_singleton] at hmem
            subst hmem
            exact Or.inr rfl
        · exact Or.inr hct

/-- C10: every `PUT` request issued to the object store during a restore
carries the HTTP header `Content-Type: image/jpeg`, whatever the archive
file name and contents are, for logos and maps alike. -/
theorem C10_uploads_contentType (env : UploadEnv) (fs : FS) (r : UploadRequest)
    (hr : r ∈ (uploadImagesFromBackup env fs).requests) : r.contentType = "image/jpeg" := by
  unfold uploadImagesFromBackup at hr
  simp only at hr
  set accL : UploadsAcc :=
    if directoryExists fs "images/logos" then
      uploadLoop env fs "images/logos" "logo" "images/logos/"
        (readdir fs "images/logos") ⟨0, [], [], [], 0⟩
    else ⟨0, [], [], [], 0⟩ with hL
  have hLreq : ∀ r' : UploadRequest, r' ∈ accL.requests → r'.contentType = "image/jpeg" := by
    intro r' hr'
    rw [hL] at hr'
    by_cases hdir : directoryExists fs "images/logos"
    · rw [if_pos hdir] at hr'
      rcases uploadLoop_requests env fs "images/logos" "logo" "images/logos/"
        (readdir fs "images/logos") ⟨0, [], [], [], 0⟩ r' hr' with hmem | hct
      · simp at hmem
      · exact hct
    · rw [if_neg hdir] at hr'
      simp at hr'
  by_cases hdir : directoryExists fs "images/maps"
  · rw [if_pos hdir] at hr
    rcases uploadLoop_requests env fs "images/maps" "map" "images/maps/"
      (readdir fs "images/maps") ⟨0, accL.imageMapping, accL.errors, accL.requests, accL.k⟩
      r hr with hmem | hct
    · exact hLreq r hmem
    · exact hct
  · rw [if_neg hdir] at hr
    exact hLreq r hr

/-- C10 witness: a concrete restore tree holding one `.png` logo file
produces a request whose content type is `image/jpeg`. -/
theorem C10_uploads_contentType_witness :
    ({ url := "https://h/b/o", body := .bin [7], contentType := "image/jpeg" } :
      UploadRequest).contentType = "image/jpeg" :=
  C10_uploads_contentType ⟨fun _ => "https://h/b/o", fun _ => true⟩
    ⟨[("images/logos/x.png", .bin [7])], ["images/logos"]⟩ _ (by decide)

/-- C3 counterexample: an archive whose manifest entry is present and
parseable but whose second entry has a failing read stream makes the
whole extraction reject with an error, instead of logging, skipping the
entry and extracting the remaining entries. -/
theorem C3_extraction_aborts_on_stream_error :
    extractZipFile false
      [⟨"backup-data.json", false, false, false, .json tinyManifest⟩,
       ⟨"images/logos/a.png", true, false, false, .bin [1]⟩,
       ⟨"other.txt", false, false, false, .bin [2]⟩]
      = .error "openReadStream error" := rfl

/-- C3 amended: during extraction only a null entry read stream is
skipped (and extraction of the remaining entries continues on the
unchanged tree); an entry whose read stream errors, or whose file write
errors, rejects the whole extraction promise, aborting it. -/
theorem C3_extraction_amended (e : ZipEntry) (rest : List ZipEntry) (fs : FS)
    (hfile : jsEndsWith e.fileName "/" = false) :
    (e.streamErr = false → e.streamNull = true →
      extractLoop (e :: rest) fs = extractLoop rest fs) ∧
    (e.streamErr = true →
      extractLoop (e :: rest) fs = .error "openReadStream error") ∧
    (e.streamErr = false → e.streamNull = false → e.writeErr = true →
      extractLoop (e :: rest) fs = .error "write stream error") := by
  refine ⟨?_, ?_, ?_⟩
  · intro h1 h2
    simp [extractLoop, hfile, h1, h2]
  · intro h1
    simp [extractLoop, hfile, h1]
  · intro h1 h2 h3
    simp [extractLoop, hfile, h1, h2, h3]

/-- C3 amended witness: the three behaviors exhibited on concrete
entries. -/
theorem C3_extraction_amended_witness :
    (extractLoop [⟨"a.png", false, true, false, .bin [1]⟩] ⟨[], []⟩
      = extractLoop [] ⟨[], []⟩) ∧
    (extractLoop [⟨"b.png", true, false, false, .bin [1]⟩] ⟨[], []⟩
      = .error "openReadStream error") ∧
    (extractLoop [⟨"c.png", false, false, true, .bin [1]⟩] ⟨[], []⟩
      = .error "write stream error") :=
  ⟨(C3_extraction_amended ⟨"a.png", false, true, false, .bin [1]⟩ [] ⟨[], []⟩ (by decide)).1
      rfl rfl,
   (C3_extraction_amended ⟨"b.png", true, false, false, .bin [1]⟩ [] ⟨[], []⟩ (by decide)).2.1
      rfl,
   (C3_extraction_amended ⟨"c.png", false, false, true, .bin [1]⟩ [] ⟨[], []⟩ (by decide)).2.2
      rfl rfl rfl⟩

/-- C2 counterexample: with the first insertion failing, the restore run
continues (one of two records is restored) but the outcome's errors
array stays empty: the per-record insertion failure is only written to
the console log, never recorded in `errors`, refuting the claim at this
input. -/
theorem C2_insert_failure_not_in_errors :
    (restoreFromZip c2Env).result.stats.errors = [] ∧
    (restoreFromZip c2Env).result.stats.shopsRestored = 1 ∧
    c2Env.insert.insertOk 0 = false ∧
    (restoreFromZip c2Env).consoleLogs = ["Failed to restore shop Shop A"] ∧
    (restoreFromZip c2Env).db = [⟨"new1", "Shop B", "", "", "db"⟩] := by
  refine ⟨?_, ?_, ?_, ?_, ?_⟩ <;> rfl

/-- The insert loop processes every record: the restored count, database
and console log follow the per-call success flags, with one log entry
per failure and no entry anywhere else. -/
theorem restoreShops_processes_all (env : InsertEnv) :
    ∀ (shops : List Shop) (k : Nat),
      (restoreShopsToDatabase env shops k).1 = (restoreShopsToDatabase env shops k).2.1.length ∧
      (restoreShopsToDatabase env shops k).1 + (restoreShopsToDatabase env shops k).2.2.length
        = shops.length := by
  intro shops
  induction shops with
  | nil => intro k; exact ⟨rfl, rfl⟩
  | cons s rest ih =>
    intro k
    rcases ih (k + 1) with ⟨h1, h2⟩
    by_cases hk : env.insertOk k
    · refine ⟨by simp [restoreShopsToDatabase, hk, h1], ?_⟩
      simp only [restoreShopsToDatabase, if_pos hk, List.length_cons]
      omega
    · refine ⟨by simp [restoreShopsToDatabase, hk, h1], ?_⟩
      simp only [restoreShopsToDatabase, if_neg hk, List.length_cons]
      omega

/-- C2 amended: when the manifest parses, per-record insertion failures
never reach the outcome's errors array (it holds exactly the upload
errors); each failure is instead written to the console log and the loop
continues, every record being processed: restored count plus console-log
entries equals the record count, and the run still reports success. -/
theorem C2_insert_failures_amended (env : RestoreEnv) (fs : FS) (bd : BackupData)
    (hex : env.extractResult = .ok fs)
    (hp : parseBackupData env fs = some bd) :
    (restoreFromZip env).result.stats.errors = (uploadImagesFromBackup env.upload fs).errors ∧
    (restoreFromZip env).result.stats.shopsRestored = (restoreFromZip env).db.length ∧
    (restoreFromZip env).result.stats.shopsRestored + (restoreFromZip env).consoleLogs.length
      = bd.shops.length ∧
    (restoreFromZip env).result.success = true := by
  unfold restoreFromZip
  rw [hex]
  dsimp only
  rw [hp]
  dsimp only
  rcases restoreShops_processes_all env.insert
    (updateShopImageUrls bd (uploadImagesFromBackup env.upload fs).imageMapping) 0
    with ⟨h1, h2⟩
  have h3 : (updateShopImageUrls bd (uploadImagesFromBackup env.upload fs).imageMapping).length
      = bd.shops.length := by
    rw [updateShopImageUrls, List.length_map]
  exact ⟨rfl, h1, h2.trans h3, rfl⟩

/-- C2 amended witness: the amended statement instantiated on the
concrete failing-insert environment. -/
theorem C2_insert_failures_amended_witness :
    (restoreFromZip c2Env).result.success = true :=
  (C2_insert_failures_amended c2Env c2FS c2BD rfl rfl).2.2.2

/-- The scoped cleanup of `restoreFromZip` always runs: whatever the
environment does (extraction failure, corrupt manifest, upload or insert
failures included), the scratch directory and the uploaded archive are
gone when the run returns. -/
theorem restoreFromZip_cleanup (env : RestoreEnv) :
    (restoreFromZip env).sys = ⟨false, false⟩ := by
  unfold restoreFromZip
  split
  · rfl
  · split <;> rfl

/-- C5: when the extracted archive has no parseable manifest, the
restore returns failure with exactly the corrupt-archive message in its
errors, and (as after every run, even a failing one) both the scratch
extraction directory and the uploaded archive file are removed, removal
of an already-absent path not being an error. -/
theorem C5_corrupt_manifest_failure_and_cleanup (env : RestoreEnv) (fs : FS)
    (hex : env.extractResult = .ok fs)
    (hp : parseBackupData env fs = none) :
    (restoreFromZip env).result.success = false ∧
    (restoreFromZip env).result.stats.errors
      = ["Invalid backup file: backup-data.json not found or corrupted"] ∧
    (restoreFromZip env).result.message
      = "Invalid backup file: backup-data.json not found or corrupted" ∧
    (restoreFromZip env).sys.extractDirPresent = false ∧
    (restoreFromZip env).sys.zipFilePresent = false ∧
    (∀ env' : RestoreEnv, (restoreFromZip env').sys = ⟨false, false⟩) ∧
    cleanupDirectory false = false ∧
    (cleanupFile false).1 = false := by
  have hsys := restoreFromZip_cleanup env
  unfold restoreFromZip at hsys ⊢
  rw [hex] at hsys ⊢
  dsimp only at hsys ⊢
  rw [hp] at hsys ⊢
  exact ⟨rfl, rfl, rfl, rfl, rfl, fun env' => restoreFromZip_cleanup env', rfl, rfl⟩

/-- C5 witness: a concrete run on an extracted tree with no manifest
file fails with the corrupt-archive message. -/
theorem C5_corrupt_manifest_failure_and_cleanup_witness :
    (restoreFromZip ⟨.ok ⟨[], []⟩, fun _ => none, ⟨fun _ => "u", fun _ => true⟩,
      ⟨fun _ => true, fun _ => "i"⟩⟩).result.success = false :=
  (C5_corrupt_manifest_failure_and_cleanup ⟨.ok ⟨[], []⟩, fun _ => none,
    ⟨fun _ => "u", fun _ => true⟩, ⟨fun _ => true, fun _ => "i"⟩⟩ ⟨[], []⟩ rfl rfl).1

/-! ### Characterization of the backup image loop -/

theorem downloadImage_eq (env : FetchEnv) (fs : FS) (url dir nm : String) :
    downloadImage env fs url dir nm =
      (if resolveOk env url then
        (some (nm ++ resolvedExt env url),
          fsWrite fs (dir ++ "/" ++ (nm ++ resolvedExt env url))
            (.bin (resolvedBuf env url)))
      else (none, fs)) := by
  unfold downloadImage resolveOk resolvedExt resolvedBuf
  cases h : resolveImage env url with
  | error e => rfl
  | ok o =>
    cases o with
    | none => rfl
    | some p =>
      obtain ⟨ext, buf⟩ := p
      rfl

theorem backupLogoStep_logos (env : FetchEnv) (shop : Shop) (acc : ImagesIndex × FS) :
    (backupLogoStep env shop acc).1.logos =
      (match logoEntry env shop with
       | some e => e :: acc.1.logos
       | none => acc.1.logos) := by
  unfold backupLogoStep logoEntry logoFilename
  by_cases hA : attemptsLogo shop = true
  · by_cases hR : resolveOk env shop.logo = true
    · simp [hA, hR, downloadImage_eq]
    · simp [hA, hR, downloadImage_eq]
  · simp [hA]

theorem backupLogoStep_maps (env : FetchEnv) (shop : Shop) (acc : ImagesIndex × FS) :
    (backupLogoStep env shop acc).1.maps = acc.1.maps := by
  unfold backupLogoStep
  by_cases hA : attemptsLogo shop = true
  · by_cases hR : resolveOk env shop.logo = true
    · simp [hA, hR, downloadImage_eq]
    · simp [hA, hR, downloadImage_eq]
  · simp [hA]

theorem backupMapStep_maps (env : FetchEnv) (shop : Shop) (acc : ImagesIndex × FS) :
    (backupMapStep env shop acc).1.maps =
      (match mapEntry env shop with
       | some e => e :: acc.1.maps
       | none => acc.1.maps) := by
  unfold backupMapStep mapEntry mapFilename
  by_cases hA : attemptsMap shop = true
  · by_cases hR : resolveOk env shop.mapImageUrl = true
    · simp [hA, hR, downloadImage_eq]
    · simp [hA, hR, downloadImage_eq]
  · simp [hA]

theorem backupMapStep_logos (env : FetchEnv) (shop : Shop) (acc : ImagesIndex × FS) :
    (backupMapStep env shop acc).1.logos = acc.1.logos := by
  unfold backupMapStep
  by_cases hA : attemptsMap shop = true
  · by_cases hR : resolveOk env shop.mapImageUrl = true
    · simp [hA, hR, downloadImage_eq]
    · simp [hA, hR, downloadImage_eq]
  · simp [hA]

theorem backupLogoStep_files_mem (env : FetchEnv) (shop : Shop) (acc : ImagesIndex × FS)
    (e : String × FileData) (he : e ∈ acc.2.files) :
    e ∈ (backupLogoStep env shop acc).2.files := by
  unfold backupLogoStep
  by_cases hA : attemptsLogo shop = true
  · by_cases hR : resolveOk env shop.logo = true
    · simp only [hA, if_true, downloadImage_eq, hR]
      exact List.mem_cons_of_mem _ he
    · simp only [hA, if_true, downloadImage_eq, hR, if_false, Bool.false_eq_true]
      exact he
  · simp only [hA, Bool.false_eq_true, if_false]
    exact he

theorem backupMapStep_files_mem (env : FetchEnv) (shop : Shop) (acc : ImagesIndex × FS)
    (e : String × FileData) (he : e ∈ acc.2.files) :
    e ∈ (backupMapStep env shop acc).2.files := by
  unfold backupMapStep
  by_cases hA : attemptsMap shop = true
  · by_cases hR : resolveOk env shop.mapImageUrl = true
    · simp only [hA, if_true, downloadImage_eq, hR]
      exact List.mem_cons_of_mem _ he
    · simp only [hA, if_true, downloadImage_eq, hR, if_false, Bool.false_eq_true]
      exact he
  · simp only [hA, Bool.false_eq_true, if_false]
    exact he

theorem backupLogoStep_files_write (env : FetchEnv) (shop : Shop) (acc : ImagesIndex × FS)
    (hA : attemptsLogo shop = true) (hR : resolveOk env shop.logo = true) :
    ("images/logos/" ++ logoFilename env shop, FileData.bin (resolvedBuf env shop.logo))
      ∈ (backupLogoStep env shop acc).2.files := by
  unfold backupLogoStep
  simp only [hA, if_true, downloadImage_eq, hR]
  exact List.mem_cons_self _ _

theorem backupMapStep_files_write (env : FetchEnv) (shop : Shop) (acc : ImagesIndex × FS)
    (hA : attemptsMap shop = true) (hR : resolveOk env shop.mapImageUrl = true) :
    ("images/maps/" ++ mapFilename env shop, FileData.bin (resolvedBuf env shop.mapImageUrl))
      ∈ (backupMapStep env shop acc).2.files := by
  unfold backupMapStep
  simp only [hA, if_true, downloadImage_eq, hR]
  exact List.mem_cons_self _ _

theorem backupShops_files_mem (env : FetchEnv) :
    ∀ (shops : List Shop) (imgs : ImagesIndex) (fs : FS) (e : String × FileData),
      e ∈ fs.files → e ∈ (backupShops env shops imgs fs).2.files := by
  intro shops
  induction shops with
  | nil => intro imgs fs e he; exact he
  | cons s rest ih =>
    intro imgs fs e he
    rw [backupShops]
    exact ih _ _ e (backupMapStep_files_mem env s _ e (backupLogoStep_files_mem env s _ e he))

theorem backupShops_logos (env : FetchEnv) :
    ∀ (shops : List Shop) (imgs : ImagesIndex) (fs : FS),
      (backupShops env shops imgs fs).1.logos
        = (shops.filterMap (logoEntry env)).reverse ++ imgs.logos := by
  intro shops
  induction shops with
  | nil => intro imgs fs; simp [backupShops]
  | cons s rest ih =>
    intro imgs fs
    rw [backupShops]
    rw [ih, backupMapStep_logos, backupLogoStep_logos]
    cases h : logoEntry env s with
    | none => simp [List.filterMap_cons, h]
    | some e => simp [List.filterMap_cons, h]

theorem backupShops_maps (env : FetchEnv) :
    ∀ (shops : List Shop) (imgs : ImagesIndex) (fs : FS),
      (backupShops env shops imgs fs).1.maps
        = (shops.filterMap (mapEntry env)).reverse ++ imgs.maps := by
  intro shops
  induction shops with
  | nil => intro imgs fs; simp [backupShops]
  | cons s rest ih =>
    intro imgs fs
    rw [backupShops]
    rw [ih, backupMapStep_maps, backupLogoStep_maps]
    cases h : mapEntry env s with
    | none => simp [List.filterMap_cons, h]
    | some e => simp [List.filterMap_cons, h]

theorem backupShops_logo_file (env : FetchEnv) :
    ∀ (shops : List Shop) (imgs : ImagesIndex) (fs : FS) (s : Shop), s ∈ shops →
      attemptsLogo s = true → resolveOk env s.logo = true →
      ("images/logos/" ++ logoFilename env s, FileData.bin (resolvedBuf env s.logo))
        ∈ (backupShops env shops imgs fs).2.files := by
  intro shops
  induction shops with
  | nil => intro imgs fs s hs; simp at hs
  | cons t rest ih =>
    intro imgs fs s hs hA hR
    rw [backupShops]
    rcases List.mem_cons.mp hs with he | hm
    · subst he
      exact backupShops_files_mem env rest _ _ _
        (backupMapStep_files_mem env s _ _ (backupLogoStep_files_write env s _ hA hR))
    · exact ih _ _ s hm hA hR

theorem backupShops_map_file (env : FetchEnv) :
    ∀ (shops : List Shop) (imgs : ImagesIndex) (fs : FS) (s : Shop), s ∈ shops →
      attemptsMap s = true → resolveOk env s.mapImageUrl = true →
      ("images/maps/" ++ mapFilename env s, FileData.bin (resolvedBuf env s.mapImageUrl))
        ∈ (backupShops env shops imgs fs).2.files := by
  intro shops
  induction shops with
  | nil => intro imgs fs s hs; simp at hs
  | cons t rest ih =>
    intro imgs fs s hs hA hR
    rw [backupShops]
    rcases List.mem_cons.mp hs with he | hm
    · subst he
      exact backupShops_files_mem env rest _ _ _
        (backupMapStep_files_write env s _ hA hR)
    · exact ih _ _ s hm hA hR

theorem logoEntry_eq_some {env : FetchEnv} {s : Shop} {sid p : String}
    (h : logoEntry env s = some (sid, p)) :
    sid = s.id ∧ p = "images/logos/" ++ logoFilename env s ∧
    attemptsLogo s = true ∧ resolveOk env s.logo = true := by
  unfold logoEntry at h
  by_cases hc : (attemptsLogo s = true ∧ resolveOk env s.logo = true)
  · rw [if_pos hc] at h
    injection h with h2
    injection h2 with h3 h4
    exact ⟨h3.symm, h4.symm, hc.1, hc.2⟩
  · rw [if_neg hc] at h
    cases h

theorem mapEntry_eq_some {env : FetchEnv} {s : Shop} {sid p : String}
    (h : mapEntry env s = some (sid, p)) :
    sid = s.id ∧ p = "images/maps/" ++ mapFilename env s ∧
    attemptsMap s = true ∧ resolveOk env s.mapImageUrl = true := by
  unfold mapEntry at h
  by_cases hc : (attemptsMap s = true ∧ resolveOk env s.mapImageUrl = true)
  · rw [if_pos hc] at h
    injection h with h2
    injection h2 with h3 h4
    exact ⟨h3.symm, h4.symm, hc.1, hc.2⟩
  · rw [if_neg hc] at h
    cases h

/-- C7: every path recorded in a full backup's asset index names a file
actually written into the archive tree (entries are created only by a
successful download of that very file), a per-asset fetch failure is
reflected as a missing index entry for that shop, and the build is never
aborted by such a failure: the manifest still lists every record. -/
theorem C7_assetIndex_mirrors_files (env : FetchEnv) (shops : List Shop)
    (hid : (shops.map Shop.id).Nodup) :
    (createFullBackup env shops).1.metadata.totalShops = shops.length ∧
    (createFullBackup env shops).1.shops = shops ∧
    (∀ sid p, (sid, p) ∈ (createFullBackup env shops).1.images.logos →
      ∃ d, (p, d) ∈ (createFullBackup env shops).2.files) ∧
    (∀ sid p, (sid, p) ∈ (createFullBackup env shops).1.images.maps →
      ∃ d, (p, d) ∈ (createFullBackup env shops).2.files) ∧
    (∀ s ∈ shops, resolveOk env s.logo = false →
      (createFullBackup env shops).1.images.logos.lookup s.id = none) ∧
    (∀ s ∈ shops, resolveOk env s.mapImageUrl = false →
      (createFullBackup env shops).1.images.maps.lookup s.id = none) := by
  unfold createFullBackup
  dsimp only
  refine ⟨rfl, rfl, ?_, ?_, ?_, ?_⟩
  · intro sid p hp
    rw [backupShops_logos] at hp
    simp only [List.append_nil, List.mem_reverse, List.mem_filterMap] at hp
    obtain ⟨s, hs, hent⟩ := hp
    obtain ⟨hsid, hpth, hA, hR⟩ := logoEntry_eq_some hent
    refine ⟨.bin (resolvedBuf env s.logo), ?_⟩
    apply List.mem_cons_of_mem
    apply List.mem_cons_of_mem
    rw [hpth]
    exact backupShops_logo_file env shops ⟨[], []⟩ _ s hs hA hR
  · intro sid p hp
    rw [backupShops_maps] at hp
    simp only [List.append_nil, List.mem_reverse, List.mem_filterMap] at hp
    obtain ⟨s, hs, hent⟩ := hp
    obtain ⟨hsid, hpth, hA, hR⟩ := mapEntry_eq_some hent
    refine ⟨.bin (resolvedBuf env s.mapImageUrl), ?_⟩
    apply List.mem_cons_of_mem
    apply List.mem_cons_of_mem
    rw [hpth]
    exact backupShops_map_file env shops ⟨[], []⟩ _ s hs hA hR
  · intro s hs hR
    apply lookup_eq_none_of_not_mem_keys
    rw [backupShops_logos]
    simp only [List.append_nil, List.map_reverse, List.mem_reverse, List.mem_map,
      List.mem_filterMap]
    rintro ⟨⟨sid, p⟩, ⟨s', hs', hent⟩, hfst⟩
    obtain ⟨hsid, _, _, hR'⟩ := logoEntry_eq_some hent
    have hss : s' = s := by
      apply List.inj_on_of_nodup_map hid hs' hs
      rw [← hsid]
      exact hfst
    rw [hss] at hR'
    rw [hR'] at hR
    cases hR
  · intro s hs hR
    apply lookup_eq_none_of_not_mem_keys
    rw [backupShops_maps]
    simp only [List.append_nil, List.map_reverse, List.mem_reverse, List.mem_map,
      List.mem_filterMap]
    rintro ⟨⟨sid, p⟩, ⟨s', hs', hent⟩, hfst⟩
    obtain ⟨hsid, _, _, hR'⟩ := mapEntry_eq_some hent
    have hss : s' = s := by
      apply List.inj_on_of_nodup_map hid hs' hs
      rw [← hsid]
      exact hfst
    rw [hss] at hR'
    rw [hR'] at hR
    cases hR

/-- C7 witness: a one-record set whose logo fetch fails (network error)
and whose map image resolves, on a concrete environment: the failed
asset is absent from the index while the manifest still counts the
record. -/
theorem C7_assetIndex_mirrors_files_witness :
    (createFullBackup
        ⟨fun u => if u = "http://m.example/map.png" then some ⟨true, "OK", none, [3]⟩ else none,
         fun _ => none, "t"⟩
        [⟨"s1", "Shop", "/objects/gone.png", "http://m.example/map.png", "d"⟩]).1.images.logos.lookup
      "s1" = none :=
  (C7_assetIndex_mirrors_files
      ⟨fun u => if u = "http://m.example/map.png" then some ⟨true, "OK", none, [3]⟩ else none,
       fun _ => none, "t"⟩
      [⟨"s1", "Shop", "/objects/gone.png", "http://m.example/map.png", "d"⟩]
      (by decide)).2.2.2.2.1
    ⟨"s1", "Shop", "/objects/gone.png", "http://m.example/map.png", "d"⟩
    (by decide) (by decide)

/-! ### Characterization of the upload loops and the insert loop -/

theorem uploadLoop_k (env : UploadEnv) (fs : FS) (dir kn kd : String) :
    ∀ (fl : List String) (acc : UploadsAcc),
      (uploadLoop env fs dir kn kd fl acc).k = acc.k + fl.length := by
  intro fl
  induction fl with
  | nil => intro acc; simp [uploadLoop]
  | cons f rest ih =>
    intro acc
    rw [uploadLoop]
    cases hfd : fsRead fs (dir ++ "/" ++ f) with
    | none =>
      dsimp only
      rw [ih]
      dsimp only
      simp only [List.length_cons]
      omega
    | some c =>
      dsimp only
      by_cases hok : env.uploadOk acc.k = true
      · rw [if_pos hok, ih]
        dsimp only
        simp only [List.length_cons]
        omega
      · rw [if_neg hok, ih]
        dsimp only
        simp only [List.length_cons]
        omega

theorem uploadLoop_errors_allok (env : UploadEnv) (fs : FS) (dir kn kd : String) :
    ∀ (fl : List String) (acc : UploadsAcc),
      (∀ j, j < fl.length → env.uploadOk (acc.k + j) = true) →
      (∀ f ∈ fl, (fsRead fs (dir ++ "/" ++ f)).isSome = true) →
      (uploadLoop env fs dir kn kd fl acc).errors = acc.errors := by
  intro fl
  induction fl with
  | nil => intro acc _ _; rfl
  | cons f rest ih =>
    intro acc hok hread
    rw [uploadLoop]
    cases hfd : fsRead fs (dir ++ "/" ++ f) with
    | none =>
      exfalso
      have h1 := hread f (List.mem_cons_self f rest)
      rw [hfd] at h1
      simp at h1
    | some c =>
      dsimp only
      have h0 : env.uploadOk acc.k = true := by
        have h1 := hok 0 (by simp)
        simpa using h1
      rw [if_pos h0]
      rw [ih]
      · intro j hj
        dsimp only
        have h1 := hok (j + 1) (by simp only [List.length_cons]; omega)
        rw [Nat.add_assoc, Nat.add_comm 1 j]
        exact h1
      · intro g hg
        exact hread g (List.mem_cons_of_mem f hg)

theorem uploadLoop_errors_onefail (env : UploadEnv) (fs : FS) (dir kn kd : String) :
    ∀ (fl : List String) (acc : UploadsAcc) (i : Nat) (hi : i < fl.length),
      (∀ j, j < fl.length → j ≠ i → env.uploadOk (acc.k + j) = true) →
      env.uploadOk (acc.k + i) = false →
      (∀ f ∈ fl, (fsRead fs (dir ++ "/" ++ f)).isSome = true) →
      (uploadLoop env fs dir kn kd fl acc).errors
        = acc.errors ++ ["Failed to upload " ++ kn ++ ": " ++ fl.get ⟨i, hi⟩] := by
  intro fl
  induction fl with
  | nil => intro acc i hi; simp at hi
  | cons f rest ih =>
    intro acc i hi hok hfail hread
    rw [uploadLoop]
    cases hfd : fsRead fs (dir ++ "/" ++ f) with
    | none =>
      exfalso
      have h1 := hread f (List.mem_cons_self f rest)
      rw [hfd] at h1
      simp at h1
    | some c =>
      dsimp only
      cases i with
      | zero =>
        have h0 : env.uploadOk acc.k = false := by simpa using hfail
        rw [if_neg (by simp [h0])]
        rw [uploadLoop_errors_allok]
        · rfl
        · intro j hj
          dsimp only
          have h1 := hok (j + 1) (by simp only [List.length_cons]; omega) (by omega)
          rw [Nat.add_assoc, Nat.add_comm 1 j]
          exact h1
        · intro g hg
          exact hread g (List.mem_cons_of_mem f hg)
      | succ i' =>
        have h0 : env.uploadOk acc.k = true := by
          have h1 := hok 0 (by simp) (by omega)
          simpa using h1
        rw [if_pos h0]
        have hi' : i' < rest.length := by
          simp only [List.length_cons] at hi
          omega
        rw [ih _ i' hi']
        · rfl
        · intro j hj hne
          dsimp only
          have h1 := hok (j + 1) (by simp only [List.length_cons]; omega) (by omega)
          rw [Nat.add_assoc, Nat.add_comm 1 j]
          exact h1
        · dsimp only
          rw [Nat.add_assoc, Nat.add_comm 1 i']
          exact hfail
        · intro g hg
          exact hread g (List.mem_cons_of_mem f hg)

theorem uploadLoop_key_shape (env : UploadEnv) (fs : FS) (dir kn kd : String) :
    ∀ (fl : List String) (acc : UploadsAcc) (key : String),
      key ∈ (uploadLoop env fs dir kn kd fl acc).imageMapping.map Prod.fst →
      key ∈ acc.imageMapping.map Prod.fst ∨ ∃ f ∈ fl, key = kd ++ f := by
  intro fl
  induction fl with
  | nil => intro acc key hk; exact Or.inl hk
  | cons f rest ih =>
    intro acc key hk
    rw [uploadLoop] at hk
    cases hfd : fsRead fs (dir ++ "/" ++ f) with
    | none =>
      rw [hfd] at hk
      dsimp only at hk
      rcases ih _ key hk with h | ⟨g, hg, he⟩
      · exact Or.inl h
      · exact Or.inr ⟨g, List.mem_cons_of_mem f hg, he⟩
    | some c =>
      rw [hfd] at hk
      dsimp only at hk
      by_cases hok : env.uploadOk acc.k = true
      · rw [if_pos hok] at hk
        rcases ih _ key hk with h | ⟨g, hg, he⟩
        · dsimp only at h
          rw [List.map_append, List.map_cons] at h
          rcases List.mem_append.mp h with h | h
          · exact Or.inl h
          · simp only [List.map_nil, List.mem_singleton] at h
            exact Or.inr ⟨f, List.mem_cons_self f rest, h⟩
        · exact Or.inr ⟨g, List.mem_cons_of_mem f hg, he⟩
      · rw [if_neg hok] at hk
        rcases ih _ key hk with h | ⟨g, hg, he⟩
        · exact Or.inl h
        · exact Or.inr ⟨g, List.mem_cons_of_mem f hg, he⟩

theorem uploadLoop_key_absent (env : UploadEnv) (fs : FS) (dir kn kd : String) :
    ∀ (fl : List String) (acc : UploadsAcc) (i : Nat) (hi : i < fl.length),
      env.uploadOk (acc.k + i) = false → fl.Nodup →
      (kd ++ fl.get ⟨i, hi⟩) ∉ acc.imageMapping.map Prod.fst →
      (kd ++ fl.get ⟨i, hi⟩) ∉ (uploadLoop env fs dir kn kd fl acc).imageMapping.map Prod.fst := by
  intro fl
  induction fl with
  | nil => intro acc i hi; simp at hi
  | cons f rest ih =>
    intro acc i hi hfail hnd hacc hk
    rw [List.nodup_cons] at hnd
    rw [uploadLoop] at hk
    cases i with
    | zero =>
      have h0 : env.uploadOk acc.k = false := by simpa using hfail
      cases hfd : fsRead fs (dir ++ "/" ++ f) with
      | none =>
        rw [hfd] at hk
        dsimp only at hk
        rcases uploadLoop_key_shape env fs dir kn kd rest _ _ hk with h | ⟨g, hg, he⟩
        · exact hacc h
        · have : f = g := strAppend_left_cancel he
          exact hnd.1 (this ▸ hg)
      | some c =>
        rw [hfd] at hk
        dsimp only at hk
        rw [if_neg (by simp [h0])] at hk
        rcases uploadLoop_key_shape env fs dir kn kd rest _ _ hk with h | ⟨g, hg, he⟩
        · exact hacc h
        · have : f = g := strAppend_left_cancel he
          exact hnd.1 (this ▸ hg)
    | succ i' =>
      have hi' : i' < rest.length := by
        simp only [List.length_cons] at hi
        omega
      have hgetne : rest.get ⟨i', hi'⟩ ≠ f := by
        intro he
        exact hnd.1 (he ▸ List.get_mem rest i' hi')
      have hkeyne : (kd ++ rest.get ⟨i', hi'⟩) ≠ kd ++ f := by
        intro he
        exact hgetne (strAppend_left_cancel he)
      have hkk : kd ++ (f :: rest).get ⟨i' + 1, hi⟩ = kd ++ rest.get ⟨i', hi'⟩ := rfl
      rw [hkk] at hk hacc
      cases hfd : fsRead fs (dir ++ "/" ++ f) with
      | none =>
        rw [hfd] at hk
        refine ih { acc with
            errors := acc.errors ++ ["Error uploading " ++ kn ++ " " ++ f ++ ": read failed"]
            k := acc.k + 1 } i' hi' ?_ hnd.2 hacc hk
        dsimp only
        rw [Nat.add_assoc, Nat.add_comm 1 i']
        exact hfail
      | some c =>
        rw [hfd] at hk
        dsimp only at hk
        by_cases hok : env.uploadOk acc.k = true
        · rw [if_pos hok] at hk
          refine ih { acc with
              uploaded := acc.uploaded + 1
              imageMapping := acc.imageMapping
                ++ [(kd ++ f, extractObjectPathFromUrl (env.uploadURL acc.k))]
              requests := acc.requests ++ [⟨env.uploadURL acc.k, c, "image/jpeg"⟩]
              k := acc.k + 1 } i' hi' ?_ hnd.2 ?_ hk
          · dsimp only
            rw [Nat.add_assoc, Nat.add_comm 1 i']
            exact hfail
          · dsimp only
            rw [List.map_append, List.map_cons]
            intro hmem
            rcases List.mem_append.mp hmem with h | h
            · exact hacc h
            · simp only [List.map_nil, List.mem_singleton] at h
              exact hkeyne h
        · rw [if_neg hok] at hk
          refine ih { acc with
              errors := acc.errors ++ ["Failed to upload " ++ kn ++ ": " ++ f]
              requests := acc.requests ++ [⟨env.uploadURL acc.k, c, "image/jpeg"⟩]
              k := acc.k + 1 } i' hi' ?_ hnd.2 hacc hk
          dsimp only
          rw [Nat.add_assoc, Nat.add_comm 1 i']
          exact hfail

theorem readdir_readable (fs : FS) (dir : String) (f : String)
    (hf : f ∈ readdir fs dir) : (fsRead fs (dir ++ "/" ++ f)).isSome = true := by
  unfold readdir at hf
  rw [List.mem_dedup] at hf
  rcases List.mem_filterMap.mp hf with ⟨e, he, hstrip⟩
  have hpath : e.1 = (dir ++ "/") ++ f := stripPre_eq_some hstrip
  unfold fsRead
  rw [List.lookup_isSome_iff]
  refine ⟨e, he, ?_⟩
  rw [hpath]
  simp

theorem readdir_nodup (fs : FS) (dir : String) : (readdir fs dir).Nodup :=
  List.nodup_dedup _

theorem getD_map_lt {α β : Type} (f : α → β) (l : List α) (j : Nat) (hj : j < l.length)
    (d : β) (d' : α) : (l.map f).getD j d = f (l.getD j d') := by
  induction l generalizing j with
  | nil => simp at hj
  | cons a t ih =>
    cases j with
    | zero => simp
    | succ j' =>
      simp only [List.map_cons, List.getD_cons_succ]
      exact ih j' (by simp only [List.length_cons] at hj; omega)

theorem restoreShops_allok (env : InsertEnv) (hok : ∀ k, env.insertOk k = true) :
    ∀ (shops : List Shop) (k0 : Nat),
      (restoreShopsToDatabase env shops k0).1 = shops.length ∧
      (restoreShopsToDatabase env shops k0).2.1.length = shops.length ∧
      (restoreShopsToDatabase env shops k0).2.2 = [] ∧
      ∀ j, j < shops.length →
        (restoreShopsToDatabase env shops k0).2.1.getD j dfltShop
          = createShopModel env (k0 + j) (stripId (shops.getD j dfltShop)) := by
  intro shops
  induction shops with
  | nil =>
    intro k0
    exact ⟨rfl, rfl, rfl, fun j hj => absurd hj (by simp)⟩
  | cons s rest ih =>
    intro k0
    rcases ih (k0 + 1) with ⟨h1, h2, h3, h4⟩
    have hk := hok k0
    refine ⟨?_, ?_, ?_, ?_⟩
    · simp [restoreShopsToDatabase, hk, h1]
    · simp [restoreShopsToDatabase, hk, h2]
    · simp [restoreShopsToDatabase, hk, h3]
    · intro j hj
      cases j with
      | zero => simp [restoreShopsToDatabase, hk]
      | succ j' =>
        have hj' : j' < rest.length := by
          simp only [List.length_cons] at hj
          omega
        simp only [restoreShopsToDatabase, if_pos hk, List.getD_cons_succ]
        rw [h4 j' hj']
        rw [Nat.add_assoc, Nat.add_comm 1 j']

theorem updateShopLogo_skips (bd : BackupData) (mp : List (String × String)) (s : Shop)
    (p0 : String) (hl : bd.images.logos.lookup s.id = some p0)
    (hmp : mp.lookup p0 = none) : updateShopLogo bd mp s = s := by
  unfold updateShopLogo
  by_cases hid : s.id ≠ ""
  · rw [if_pos hid, hl]
    dsimp only
    by_cases hp0 : p0 ≠ ""
    · rw [if_pos hp0, hmp]
    · rw [if_neg hp0]
  · rw [if_neg hid]

theorem updateShopMap_skips (bd : BackupData) (mp : List (String × String)) (s : Shop)
    (p0 : String) (hl : bd.images.maps.lookup s.id = some p0)
    (hmp : mp.lookup p0 = none) : updateShopMap bd mp s = s := by
  unfold updateShopMap
  by_cases hid : s.id ≠ ""
  · rw [if_pos hid, hl]
    dsimp only
    by_cases hp0 : p0 ≠ ""
    · rw [if_pos hp0, hmp]
    · rw [if_neg hp0]
  · rw [if_neg hid]

theorem updateShopLogo_shape (bd : BackupData) (mp : List (String × String)) (s : Shop) :
    ∃ v, updateShopLogo bd mp s = { s with logo := v } := by
  unfold updateShopLogo
  by_cases hid : s.id ≠ ""
  · rw [if_pos hid]
    cases hl : bd.images.logos.lookup s.id with
    | none => exact ⟨s.logo, rfl⟩
    | some p0 =>
      dsimp only
      by_cases hp0 : p0 ≠ ""
      · rw [if_pos hp0]
        cases hv : mp.lookup p0 with
        | none => exact ⟨s.logo, rfl⟩
        | some v =>
          dsimp only
          by_cases hv0 : v ≠ ""
          · rw [if_pos hv0]
            exact ⟨v, rfl⟩
          · rw [if_neg hv0]
            exact ⟨s.logo, rfl⟩
      · rw [if_neg hp0]
        exact ⟨s.logo, rfl⟩
  · rw [if_neg hid]
    exact ⟨s.logo, rfl⟩

theorem updateShopMap_shape (bd : BackupData) (mp : List (String × String)) (s : Shop) :
    ∃ v, updateShopMap bd mp s = { s with mapImageUrl := v } := by
  unfold updateShopMap
  by_cases hid : s.id ≠ ""
  · rw [if_pos hid]
    cases hl : bd.images.maps.lookup s.id with
    | none => exact ⟨s.mapImageUrl, rfl⟩
    | some p0 =>
      dsimp only
      by_cases hp0 : p0 ≠ ""
      · rw [if_pos hp0]
        cases hv : mp.lookup p0 with
        | none => exact ⟨s.mapImageUrl, rfl⟩
        | some v =>
          dsimp only
          by_cases hv0 : v ≠ ""
          · rw [if_pos hv0]
            exact ⟨v, rfl⟩
          · rw [if_neg hv0]
            exact ⟨s.mapImageUrl, rfl⟩
      · rw [if_neg hp0]
        exact ⟨s.mapImageUrl, rfl⟩
  · rw [if_neg hid]
    exact ⟨s.mapImageUrl, rfl⟩

theorem updateShopLogo_rewrites (bd : BackupData) (mp : List (String × String)) (s : Shop)
    (p0 v : String) (hid : s.id ≠ "") (hl : bd.images.logos.lookup s.id = some p0)
    (hp0 : p0 ≠ "") (hv : mp.lookup p0 = some v) (hv0 : v ≠ "") :
    updateShopLogo bd mp s = { s with logo := v } := by
  unfold updateShopLogo
  rw [if_pos hid, hl]
  dsimp only
  rw [if_pos hp0, hv]
  dsimp only
  rw [if_pos hv0]

theorem updateShopMap_rewrites (bd : BackupData) (mp : List (String × String)) (s : Shop)
    (p0 v : String) (hid : s.id ≠ "") (hl : bd.images.maps.lookup s.id = some p0)
    (hp0 : p0 ≠ "") (hv : mp.lookup p0 = some v) (hv0 : v ≠ "") :
    updateShopMap bd mp s = { s with mapImageUrl := v } := by
  unfold updateShopMap
  rw [if_pos hid, hl]
  dsimp only
  rw [if_pos hp0, hv]
  dsimp only
  rw [if_pos hv0]

/-- C4: when exactly one asset upload fails during a restore and
everything else succeeds, the outcome's errors array holds exactly one
entry naming that asset, every record is still restored (the
corresponding record is not dropped), and the record whose index path
points at the failed file keeps its original reference string for that
asset slot.  The first conjunct settles a failing primary (logo) asset,
the i-th file of the logos directory; the second a failing secondary
(map) asset, the i-th file of the maps directory, whose absolute upload
index is offset by the number of logo uploads issued before it. -/
theorem C4_single_upload_failure (env : RestoreEnv) (fs : FS) (bd : BackupData)
    (s : Shop) (i : Nat)
    (hex : env.extractResult = .ok fs)
    (hp : parseBackupData env fs = some bd)
    (hins : ∀ k, env.insert.insertOk k = true) :
    (directoryExists fs "images/logos" = true →
      ∀ hi : i < (readdir fs "images/logos").length,
      env.upload.uploadOk i = false →
      (∀ k, k ≠ i → env.upload.uploadOk k = true) →
      bd.images.logos.lookup s.id
        = some ("images/logos/" ++ (readdir fs "images/logos").get ⟨i, hi⟩) →
      (restoreFromZip env).result.stats.errors
        = ["Failed to upload logo: " ++ (readdir fs "images/logos").get ⟨i, hi⟩] ∧
      (restoreFromZip env).result.stats.shopsRestored = bd.shops.length ∧
      (restoreFromZip env).db.length = bd.shops.length ∧
      ∀ j, j < bd.shops.length → bd.shops.getD j dfltShop = s →
        ((restoreFromZip env).db.getD j dfltShop).logo = s.logo ∧
        ((restoreFromZip env).db.getD j dfltShop).name = s.name) ∧
    (directoryExists fs "images/maps" = true →
      ∀ hi : i < (readdir fs "images/maps").length,
      env.upload.uploadOk (logosCount fs + i) = false →
      (∀ k, k ≠ logosCount fs + i → env.upload.uploadOk k = true) →
      bd.images.maps.lookup s.id
        = some ("images/maps/" ++ (readdir fs "images/maps").get ⟨i, hi⟩) →
      (restoreFromZip env).result.stats.errors
        = ["Failed to upload map: " ++ (readdir fs "images/maps").get ⟨i, hi⟩] ∧
      (restoreFromZip env).result.stats.shopsRestored = bd.shops.length ∧
      (restoreFromZip env).db.length = bd.shops.length ∧
      ∀ j, j < bd.shops.length → bd.shops.getD j dfltShop = s →
        ((restoreFromZip env).db.getD j dfltShop).mapImageUrl = s.mapImageUrl ∧
        ((restoreFromZip env).db.getD j dfltShop).name = s.name) := by
  have hreadL : ∀ f ∈ readdir fs "images/logos",
      (fsRead fs ("images/logos" ++ "/" ++ f)).isSome = true :=
    fun f hf => readdir_readable fs "images/logos" f hf
  have hreadM : ∀ f ∈ readdir fs "images/maps",
      (fsRead fs ("images/maps" ++ "/" ++ f)).isSome = true :=
    fun f hf => readdir_readable fs "images/maps" f hf
  rcases restoreShops_allok env.insert hins
    (updateShopImageUrls bd (uploadImagesFromBackup env.upload fs).imageMapping) 0
    with ⟨hr1, hr2, _, hr4⟩
  have hlen : (updateShopImageUrls bd (uploadImagesFromBackup env.upload fs).imageMapping).length
      = bd.shops.length := by
    unfold updateShopImageUrls
    rw [List.length_map]
  have hel : ∀ j, j < bd.shops.length →
      (updateShopImageUrls bd
        (uploadImagesFromBackup env.upload fs).imageMapping).getD j dfltShop
      = updateShopMap bd (uploadImagesFromBackup env.upload fs).imageMapping
          (updateShopLogo bd (uploadImagesFromBackup env.upload fs).imageMapping
            (bd.shops.getD j dfltShop)) := by
    intro j hj
    unfold updateShopImageUrls
    exact getD_map_lt _ bd.shops j hj dfltShop dfltShop
  constructor
  · intro hdirL hi hfail hok hsidx
    have hok0 : ∀ j, j < (readdir fs "images/logos").length → j ≠ i →
        env.upload.uploadOk ((⟨0, [], [], [], 0⟩ : UploadsAcc).k + j) = true := by
      intro j _ hne
      simpa using hok j hne
    have hfail0 : env.upload.uploadOk ((⟨0, [], [], [], 0⟩ : UploadsAcc).k + i) = false := by
      simpa using hfail
    have hLerr := uploadLoop_errors_onefail env.upload fs "images/logos" "logo" "images/logos/"
      (readdir fs "images/logos") ⟨0, [], [], [], 0⟩ i hi hok0 hfail0 hreadL
    rw [List.nil_append] at hLerr
    have hLk : (uploadLoop env.upload fs "images/logos" "logo" "images/logos/"
        (readdir fs "images/logos") (⟨0, [], [], [], 0⟩ : UploadsAcc)).k
        = (readdir fs "images/logos").length := by
      simpa using uploadLoop_k env.upload fs "images/logos" "logo" "images/logos/"
        (readdir fs "images/logos") ⟨0, [], [], [], 0⟩
    have hLabs := uploadLoop_key_absent env.upload fs "images/logos" "logo" "images/logos/"
      (readdir fs "images/logos") ⟨0, [], [], [], 0⟩ i hi hfail0
      (readdir_nodup fs "images/logos") (by simp)
    have herrs : (uploadImagesFromBackup env.upload fs).errors
        = ["Failed to upload logo: " ++ (readdir fs "images/logos").get ⟨i, hi⟩] := by
      unfold uploadImagesFromBackup
      rw [if_pos hdirL]
      set accL := uploadLoop env.upload fs "images/logos" "logo" "images/logos/"
        (readdir fs "images/logos") (⟨0, [], [], [], 0⟩ : UploadsAcc) with hACC
      dsimp only
      by_cases hdirM : directoryExists fs "images/maps" = true
      · rw [if_pos hdirM]
        have hokM : ∀ j, j < (readdir fs "images/maps").length →
            env.upload.uploadOk ((⟨0, accL.imageMapping, accL.errors, accL.requests, accL.k⟩ :
              UploadsAcc).k + j) = true := by
          intro j hj
          have hkk : (⟨0, accL.imageMapping, accL.errors, accL.requests, accL.k⟩ :
              UploadsAcc).k = (readdir fs "images/logos").length := hLk
          rw [hkk]
          exact hok _ (by omega)
        rw [uploadLoop_errors_allok env.upload fs "images/maps" "map" "images/maps/"
          (readdir fs "images/maps") ⟨0, accL.imageMapping, accL.errors, accL.requests, accL.k⟩
          hokM hreadM]
        exact hLerr
      · rw [if_neg hdirM]
        exact hLerr
    have hkeys : List.lookup ("images/logos/" ++ (readdir fs "images/logos").get ⟨i, hi⟩)
        (uploadImagesFromBackup env.upload fs).imageMapping = none := by
      apply lookup_eq_none_of_not_mem_keys
      unfold uploadImagesFromBackup
      rw [if_pos hdirL]
      set accL := uploadLoop env.upload fs "images/logos" "logo" "images/logos/"
        (readdir fs "images/logos") (⟨0, [], [], [], 0⟩ : UploadsAcc) with hACC
      dsimp only
      by_cases hdirM : directoryExists fs "images/maps" = true
      · rw [if_pos hdirM]
        intro hmem
        rcases uploadLoop_key_shape env.upload fs "images/maps" "map" "images/maps/"
          (readdir fs "images/maps") ⟨0, accL.imageMapping, accL.errors, accL.requests, accL.k⟩
          _ hmem with h | ⟨g, hg, he⟩
        · exact hLabs h
        · exact logosKey_ne_mapsKey _ g he
      · rw [if_neg hdirM]
        exact hLabs
    unfold restoreFromZip
    rw [hex]
    dsimp only
    rw [hp]
    dsimp only
    refine ⟨herrs, ?_, ?_, ?_⟩
    · rw [hr1, hlen]
    · rw [hr2, hlen]
    · intro j hj hsj
      have hj2 : j < (updateShopImageUrls bd
          (uploadImagesFromBackup env.upload fs).imageMapping).length := by
        rw [hlen]
        exact hj
      rw [hr4 j hj2]
      rw [hel j hj, hsj,
        updateShopLogo_skips bd (uploadImagesFromBackup env.upload fs).imageMapping s _
          hsidx hkeys]
      rcases updateShopMap_shape bd (uploadImagesFromBackup env.upload fs).imageMapping s
        with ⟨m, hm⟩
      rw [hm]
      exact ⟨rfl, rfl⟩
  · intro hdirM hi hfail hok hsidx
    have herrs : (uploadImagesFromBackup env.upload fs).errors
        = ["Failed to upload map: " ++ (readdir fs "images/maps").get ⟨i, hi⟩] := by
      unfold uploadImagesFromBackup
      by_cases hdirL : directoryExists fs "images/logos" = true
      · rw [if_pos hdirL]
        set accL := uploadLoop env.upload fs "images/logos" "logo" "images/logos/"
          (readdir fs "images/logos") (⟨0, [], [], [], 0⟩ : UploadsAcc) with hACC
        dsimp only
        rw [if_pos hdirM]
        have hLc : logosCount fs = (readdir fs "images/logos").length := by
          unfold logosCount
          rw [if_pos hdirL]
        have haccLk : accL.k = logosCount fs := by
          rw [hACC, hLc]
          simpa using uploadLoop_k env.upload fs "images/logos" "logo" "images/logos/"
            (readdir fs "images/logos") ⟨0, [], [], [], 0⟩
        have haccLerr : accL.errors = [] := by
          rw [hACC]
          apply uploadLoop_errors_allok env.upload fs "images/logos" "logo" "images/logos/"
            (readdir fs "images/logos") ⟨0, [], [], [], 0⟩ _ hreadL
          intro j hj
          have hne : j ≠ logosCount fs + i := by
            rw [hLc]
            omega
          simpa using hok j hne
        have hokM : ∀ j, j < (readdir fs "images/maps").length → j ≠ i →
            env.upload.uploadOk ((⟨0, accL.imageMapping, accL.errors, accL.requests, accL.k⟩ :
              UploadsAcc).k + j) = true := by
          intro j hj hne
          have hkk : (⟨0, accL.imageMapping, accL.errors, accL.requests, accL.k⟩ :
              UploadsAcc).k = logosCount fs := haccLk
          rw [hkk]
          exact hok _ (by omega)
        have hfailM : env.upload.uploadOk ((⟨0, accL.imageMapping, accL.errors, accL.requests,
            accL.k⟩ : UploadsAcc).k + i) = false := by
          have hkk : (⟨0, accL.imageMapping, accL.errors, accL.requests, accL.k⟩ :
              UploadsAcc).k = logosCount fs := haccLk
          rw [hkk]
          exact hfail
        rw [uploadLoop_errors_onefail env.upload fs "images/maps" "map" "images/maps/"
          (readdir fs "images/maps") ⟨0, accL.imageMapping, accL.errors, accL.requests, accL.k⟩
          i hi hokM hfailM hreadM]
        dsimp only
        rw [haccLerr, List.nil_append]
        rfl
      · rw [if_neg hdirL]
        dsimp only
        rw [if_pos hdirM]
        have hLc : logosCount fs = 0 := by
          unfold logosCount
          rw [if_neg hdirL]
        have hokM : ∀ j, j < (readdir fs "images/maps").length → j ≠ i →
            env.upload.uploadOk ((⟨0, [], [], [], 0⟩ : UploadsAcc).k + j) = true := by
          intro j hj hne
          have hne2 : j ≠ logosCount fs + i := by
            rw [hLc]
            omega
          simpa using hok j hne2
        have hfailM : env.upload.uploadOk ((⟨0, [], [], [], 0⟩ : UploadsAcc).k + i) = false := by
          have h2 := hfail
          rw [hLc] at h2
          simpa using h2
        rw [uploadLoop_errors_onefail env.upload fs "images/maps" "map" "images/maps/"
          (readdir fs "images/maps") ⟨0, [], [], [], 0⟩ i hi hokM hfailM hreadM]
        rw [List.nil_append]
        rfl
    have hkeys : List.lookup ("images/maps/" ++ (readdir fs "images/maps").get ⟨i, hi⟩)
        (uploadImagesFromBackup env.upload fs).imageMapping = none := by
      apply lookup_eq_none_of_not_mem_keys
      unfold uploadImagesFromBackup
      by_cases hdirL : directoryExists fs "images/logos" = true
      · rw [if_pos hdirL]
        set accL := uploadLoop env.upload fs "images/logos" "logo" "images/logos/"
          (readdir fs "images/logos") (⟨0, [], [], [], 0⟩ : UploadsAcc) with hACC
        dsimp only
        rw [if_pos hdirM]
        have hLc : logosCount fs = (readdir fs "images/logos").length := by
          unfold logosCount
          rw [if_pos hdirL]
        have haccLk : accL.k = logosCount fs := by
          rw [hACC, hLc]
          simpa using uploadLoop_k env.upload fs "images/logos" "logo" "images/logos/"
            (readdir fs "images/logos") ⟨0, [], [], [], 0⟩
        have haccLabs : ("images/maps/" ++ (readdir fs "images/maps").get ⟨i, hi⟩)
            ∉ accL.imageMapping.map Prod.fst := by
          rw [hACC]
          intro hmem
          rcases uploadLoop_key_shape env.upload fs "images/logos" "logo" "images/logos/"
            (readdir fs "images/logos") ⟨0, [], [], [], 0⟩ _ hmem with h | ⟨g, hg, he⟩
          · simp at h
          · exact logosKey_ne_mapsKey g _ he.symm
        have hfailM : env.upload.uploadOk ((⟨0, accL.imageMapping, accL.errors, accL.requests,
            accL.k⟩ : UploadsAcc).k + i) = false := by
          have hkk : (⟨0, accL.imageMapping, accL.errors, accL.requests, accL.k⟩ :
              UploadsAcc).k = logosCount fs := haccLk
          rw [hkk]
          exact hfail
        exact uploadLoop_key_absent env.upload fs "images/maps" "map" "images/maps/"
          (readdir fs "images/maps") ⟨0, accL.imageMapping, accL.errors, accL.requests, accL.k⟩
          i hi hfailM (readdir_nodup fs "images/maps") haccLabs
      · rw [if_neg hdirL]
        dsimp only
        rw [if_pos hdirM]
        have hLc : logosCount fs = 0 := by
          unfold logosCount
          rw [if_neg hdirL]
        have hfailM : env.upload.uploadOk ((⟨0, [], [], [], 0⟩ : UploadsAcc).k + i) = false := by
          have h2 := hfail
          rw [hLc] at h2
          simpa using h2
        exact uploadLoop_key_absent env.upload fs "images/maps" "map" "images/maps/"
          (readdir fs "images/maps")
          ⟨0, (⟨0, [], [], [], 0⟩ : UploadsAcc).imageMapping,
            (⟨0, [], [], [], 0⟩ : UploadsAcc).errors,
            (⟨0, [], [], [], 0⟩ : UploadsAcc).requests, (⟨0, [], [], [], 0⟩ : UploadsAcc).k⟩
          i hi hfailM (readdir_nodup fs "images/maps") (by simp)
    unfold restoreFromZip
    rw [hex]
    dsimp only
    rw [hp]
    dsimp only
    refine ⟨herrs, ?_, ?_, ?_⟩
    · rw [hr1, hlen]
    · rw [hr2, hlen]
    · intro j hj hsj
      have hj2 : j < (updateShopImageUrls bd
          (uploadImagesFromBackup env.upload fs).imageMapping).length := by
        rw [hlen]
        exact hj
      rw [hr4 j hj2]
      rw [hel j hj, hsj]
      rcases updateShopLogo_shape bd (uploadImagesFromBackup env.upload fs).imageMapping s
        with ⟨v, hv⟩
      rw [hv]
      rw [updateShopMap_skips bd (uploadImagesFromBackup env.upload fs).imageMapping
        { s with logo := v } _ hsidx hkeys]
      exact ⟨rfl, rfl⟩

/-- C4 witness: the theorem instantiated on two concrete one-record
environments, one whose only logo upload fails, one whose only map
upload fails. -/
theorem C4_single_upload_failure_witness :
    ((restoreFromZip c4Env).result.stats.errors
      = ["Failed to upload logo: " ++ (readdir c4FS "images/logos").get ⟨0, by decide⟩]) ∧
    ((restoreFromZip c4mEnv).result.stats.errors
      = ["Failed to upload map: " ++ (readdir c4mFS "images/maps").get ⟨0, by decide⟩]) :=
  ⟨((C4_single_upload_failure c4Env c4FS c4BD ⟨"a", "Shop A", "orig-logo", "", ""⟩ 0
      rfl rfl (fun _ => rfl)).1 (by decide) (by decide) rfl
      (fun k hk => by simp only [c4Env]; simpa using hk) (by decide)).1,
   ((C4_single_upload_failure c4mEnv c4mFS c4mBD ⟨"a", "Shop A", "", "orig-map", ""⟩ 0
      rfl rfl (fun _ => rfl)).2 (by decide) (by decide) (by decide)
      (fun k hk => by
        rw [show logosCount c4mFS + 0 = 0 from rfl] at hk
        simp only [c4mEnv]
        simpa using hk)
      (by decide)).1⟩

/-! ### Additional lemmas for the round-trip theorem -/

theorem filterMap_congr_map {α β : Type} (f : α → Option β) (g : α → β) :
    ∀ (l : List α), (∀ a ∈ l, f a = some (g a)) → l.filterMap f = l.map g := by
  intro l
  induction l with
  | nil => intro _; rfl
  | cons a t ih =>
    intro h
    rw [List.filterMap_cons, h a (List.mem_cons_self a t),
      ih (fun b hb => h b (List.mem_cons_of_mem a hb)), List.map_cons]

theorem mem_readdir_of_mem_files {fs : FS} {dir fn : String} {d : FileData}
    (h : ((dir ++ "/") ++ fn, d) ∈ fs.files) : fn ∈ readdir fs dir := by
  unfold readdir
  rw [List.mem_dedup]
  apply List.mem_filterMap.mpr
  exact ⟨((dir ++ "/") ++ fn, d), h, stripPre_append (dir ++ "/") fn⟩

theorem exists_lookup_of_mem_keys {β : Type} {l : List (String × β)} {k : String}
    (h : k ∈ l.map Prod.fst) : ∃ v, l.lookup k = some v := by
  rcases List.mem_map.mp h with ⟨p, hp, hfst⟩
  exact exists_lookup_of_mem (k := k) (v := p.2) (by rw [← hfst]; exact hp)

theorem backupLogoStep_dirs (env : FetchEnv) (shop : Shop) (acc : ImagesIndex × FS) :
    (backupLogoStep env shop acc).2.dirs = acc.2.dirs := by
  unfold backupLogoStep
  by_cases hA : attemptsLogo shop = true
  · by_cases hR : resolveOk env shop.logo = true
    · simp [hA, hR, downloadImage_eq, fsWrite]
    · simp [hA, hR, downloadImage_eq]
  · simp [hA]

theorem backupMapStep_dirs (env : FetchEnv) (shop : Shop) (acc : ImagesIndex × FS) :
    (backupMapStep env shop acc).2.dirs = acc.2.dirs := by
  unfold backupMapStep
  by_cases hA : attemptsMap shop = true
  · by_cases hR : resolveOk env shop.mapImageUrl = true
    · simp [hA, hR, downloadImage_eq, fsWrite]
    · simp [hA, hR, downloadImage_eq]
  · simp [hA]

theorem backupShops_dirs (env : FetchEnv) :
    ∀ (shops : List Shop) (imgs : ImagesIndex) (fs : FS),
      (backupShops env shops imgs fs).2.dirs = fs.dirs := by
  intro shops
  induction shops with
  | nil => intro imgs fs; rfl
  | cons s rest ih =>
    intro imgs fs
    rw [backupShops]
    rw [ih, backupMapStep_dirs, backupLogoStep_dirs]

theorem createFullBackup_dirs (env : FetchEnv) (shops : List Shop) :
    (createFullBackup env shops).2.dirs = ["images/maps", "images/logos", "images"] := by
  unfold createFullBackup
  dsimp only [fsWrite]
  rw [backupShops_dirs]

theorem createFullBackup_parse (renv : RestoreEnv) (env : FetchEnv) (shops : List Shop) :
    parseBackupData renv (createFullBackup env shops).2
      = some (createFullBackup env shops).1 := by
  unfold createFullBackup parseBackupData fsRead fsWrite
  dsimp only
  rw [List.lookup_cons]
  rw [show (("backup-data.json" == "README.md") : Bool) = false from by decide]
  dsimp only
  rw [List.lookup_cons_self]

theorem uploadLoop_mapping_mono (env : UploadEnv) (fs : FS) (dir kn kd : String) :
    ∀ (fl : List String) (acc : UploadsAcc) (key : String),
      key ∈ acc.imageMapping.map Prod.fst →
      key ∈ (uploadLoop env fs dir kn kd fl acc).imageMapping.map Prod.fst := by
  intro fl
  induction fl with
  | nil => intro acc key hk; exact hk
  | cons f rest ih =>
    intro acc key hk
    rw [uploadLoop]
    cases hfd : fsRead fs (dir ++ "/" ++ f) with
    | none =>
      dsimp only
      exact ih _ key hk
    | some c =>
      dsimp only
      by_cases hok : env.uploadOk acc.k = true
      · rw [if_pos hok]
        apply ih
        dsimp only
        rw [List.map_append]
        exact List.mem_append_left _ hk
      · rw [if_neg hok]
        exact ih _ key hk

theorem uploadLoop_mapping_complete (env : UploadEnv) (fs : FS) (dir kn kd : String)
    (hup : ∀ k, env.uploadOk k = true) :
    ∀ (fl : List String) (acc : UploadsAcc) (f : String), f ∈ fl →
      (∀ g ∈ fl, (fsRead fs (dir ++ "/" ++ g)).isSome = true) →
      (kd ++ f) ∈ (uploadLoop env fs dir kn kd fl acc).imageMapping.map Prod.fst := by
  intro fl
  induction fl with
  | nil => intro acc f hf; simp at hf
  | cons g rest ih =>
    intro acc f hf hread
    rw [uploadLoop]
    cases hfd : fsRead fs (dir ++ "/" ++ g) with
    | none =>
      exfalso
      have h1 := hread g (List.mem_cons_self g rest)
      rw [hfd] at h1
      simp at h1
    | some c =>
      dsimp only
      rw [if_pos (hup acc.k)]
      rcases List.mem_cons.mp hf with he | hm
      · subst he
        apply uploadLoop_mapping_mono
        dsimp only
        rw [List.map_append]
        apply List.mem_append_right
        simp
      · exact ih _ f hm (fun g' hg' => hread g' (List.mem_cons_of_mem g hg'))

theorem uploadLoop_mapping_values (env : UploadEnv) (fs : FS) (dir kn kd : String) :
    ∀ (fl : List String) (acc : UploadsAcc) (e : String × String),
      e ∈ (uploadLoop env fs dir kn kd fl acc).imageMapping →
      e ∈ acc.imageMapping ∨ ∃ k, e.2 = extractObjectPathFromUrl (env.uploadURL k) := by
  intro fl
  induction fl with
  | nil => intro acc e he; exact Or.inl he
  | cons f rest ih =>
    intro acc e he
    rw [uploadLoop] at he
    cases hfd : fsRead fs (dir ++ "/" ++ f) with
    | none =>
      rw [hfd] at he
      dsimp only at he
      rcases ih _ e he with h | h
      · exact Or.inl h
      · exact Or.inr h
    | some c =>
      rw [hfd] at he
      dsimp only at he
      by_cases hok : env.uploadOk acc.k = true
      · rw [if_pos hok] at he
        rcases ih _ e he with h | h
        · dsimp only at h
          rcases List.mem_append.mp h with h | h
          · exact Or.inl h
          · simp only [List.mem_singleton] at h
            subst h
            exact Or.inr ⟨acc.k, rfl⟩
        · exact Or.inr h
      · rw [if_neg hok] at he
        rcases ih _ e he with h | h
        · exact Or.inl h
        · exact Or.inr h

theorem extractObjectPathFromUrl_shape (u : String) :
    ∃ x, extractObjectPathFromUrl u = "/objects/uploads/" ++ x :=
  ⟨_, rfl⟩

theorem resolveOk_ne_empty {env : FetchEnv} {url : String}
    (h : resolveOk env url = true) : url ≠ "" ∧ url ≠ "fa-store" := by
  constructor
  · intro he
    subst he
    rw [show resolveOk env "" = false from rfl] at h
    cases h
  · intro he
    subst he
    rw [show resolveOk env "fa-store" = false from rfl] at h
    cases h

theorem attemptsLogo_of_resolveOk {env : FetchEnv} {s : Shop}
    (h : resolveOk env s.logo = true) : attemptsLogo s = true := by
  rcases resolveOk_ne_empty h with ⟨h1, h2⟩
  simp [attemptsLogo, h1, h2]

theorem attemptsMap_of_resolveOk {env : FetchEnv} {s : Shop}
    (h : resolveOk env s.mapImageUrl = true) : attemptsMap s = true := by
  rcases resolveOk_ne_empty h with ⟨h1, _⟩
  simp [attemptsMap, h1]

/-- C1: restoring the archive produced by a full backup of a record set
(distinct, non-empty ids; every asset reference resolvable) with every
upload and insert succeeding restores exactly |R| records; each restored
record carries a stable store reference (of the uploads form) distinct
from the one in R for both asset slots, keeps its other fields, and gets
a freshly assigned identity in place of the stripped original id. -/
theorem C1_roundtrip (fenv : FetchEnv) (uenv : UploadEnv) (ienv : InsertEnv)
    (pO : FileData → Option BackupData) (shops : List Shop)
    (hid : (shops.map Shop.id).Nodup)
    (hid0 : ∀ s ∈ shops, s.id ≠ "")
    (hlogo : ∀ s ∈ shops, resolveOk fenv s.logo = true)
    (hmap : ∀ s ∈ shops, resolveOk fenv s.mapImageUrl = true)
    (hup : ∀ k, uenv.uploadOk k = true)
    (hins : ∀ k, ienv.insertOk k = true)
    (hfreshRef : ∀ k, ∀ s ∈ shops,
      extractObjectPathFromUrl (uenv.uploadURL k) ≠ s.logo ∧
      extractObjectPathFromUrl (uenv.uploadURL k) ≠ s.mapImageUrl)
    (hfreshId : ∀ k, ∀ s ∈ shops, ienv.freshId k ≠ s.id) :
    (roundtripRun fenv uenv ienv pO shops).result.success = true ∧
    (roundtripRun fenv uenv ienv pO shops).result.stats.shopsRestored = shops.length ∧
    (roundtripRun fenv uenv ienv pO shops).db.length = shops.length ∧
    ∀ j, j < shops.length →
      jsStartsWith (((roundtripRun fenv uenv ienv pO shops).db.getD j dfltShop).logo)
        "/objects/uploads/" = true ∧
      ((roundtripRun fenv uenv ienv pO shops).db.getD j dfltShop).logo
        ≠ (shops.getD j dfltShop).logo ∧
      jsStartsWith (((roundtripRun fenv uenv ienv pO shops).db.getD j dfltShop).mapImageUrl)
        "/objects/uploads/" = true ∧
      ((roundtripRun fenv uenv ienv pO shops).db.getD j dfltShop).mapImageUrl
        ≠ (shops.getD j dfltShop).mapImageUrl ∧
      ((roundtripRun fenv uenv ienv pO shops).db.getD j dfltShop).id
        ≠ (shops.getD j dfltShop).id ∧
      ((roundtripRun fenv uenv ienv pO shops).db.getD j dfltShop).name
        = (shops.getD j dfltShop).name := by
  have hattL : ∀ s ∈ shops, attemptsLogo s = true :=
    fun s hs => attemptsLogo_of_resolveOk (hlogo s hs)
  have hattM : ∀ s ∈ shops, attemptsMap s = true :=
    fun s hs => attemptsMap_of_resolveOk (hmap s hs)
  have hentL : ∀ s ∈ shops, logoEntry fenv s
      = some (s.id, "images/logos/" ++ logoFilename fenv s) := by
    intro s hs
    unfold logoEntry
    rw [if_pos ⟨hattL s hs, hlogo s hs⟩]
  have hentM : ∀ s ∈ shops, mapEntry fenv s
      = some (s.id, "images/maps/" ++ mapFilename fenv s) := by
    intro s hs
    unfold mapEntry
    rw [if_pos ⟨hattM s hs, hmap s hs⟩]
  have hlogosIdx : (createFullBackup fenv shops).1.images.logos
      = (shops.map (fun s => (s.id, "images/logos/" ++ logoFilename fenv s))).reverse := by
    unfold createFullBackup
    dsimp only
    rw [backupShops_logos, List.append_nil,
      filterMap_congr_map (logoEntry fenv) _ shops hentL]
  have hmapsIdx : (createFullBackup fenv shops).1.images.maps
      = (shops.map (fun s => (s.id, "images/maps/" ++ mapFilename fenv s))).reverse := by
    unfold createFullBackup
    dsimp only
    rw [backupShops_maps, List.append_nil,
      filterMap_congr_map (mapEntry fenv) _ shops hentM]
  have hkeysL : ((createFullBackup fenv shops).1.images.logos.map Prod.fst).Nodup := by
    rw [hlogosIdx, List.map_reverse, List.nodup_reverse, List.map_map]
    exact hid
  have hkeysM : ((createFullBackup fenv shops).1.images.maps.map Prod.fst).Nodup := by
    rw [hmapsIdx, List.map_reverse, List.nodup_reverse, List.map_map]
    exact hid
  have hlookL : ∀ s ∈ shops, (createFullBackup fenv shops).1.images.logos.lookup s.id
      = some ("images/logos/" ++ logoFilename fenv s) := by
    intro s hs
    apply lookup_of_mem_nodup _ hkeysL
    rw [hlogosIdx, List.mem_reverse]
    exact List.mem_map_of_mem _ hs
  have hlookM : ∀ s ∈ shops, (createFullBackup fenv shops).1.images.maps.lookup s.id
      = some ("images/maps/" ++ mapFilename fenv s) := by
    intro s hs
    apply lookup_of_mem_nodup _ hkeysM
    rw [hmapsIdx, List.mem_reverse]
    exact List.mem_map_of_mem _ hs
  have hfileL : ∀ s ∈ shops,
      (("images/logos" ++ "/") ++ logoFilename fenv s,
        FileData.bin (resolvedBuf fenv s.logo)) ∈ (createFullBackup fenv shops).2.files := by
    intro s hs
    unfold createFullBackup
    dsimp only [fsWrite]
    apply List.mem_cons_of_mem
    apply List.mem_cons_of_mem
    exact backupShops_logo_file fenv shops ⟨[], []⟩ _ s hs (hattL s hs) (hlogo s hs)
  have hfileM : ∀ s ∈ shops,
      (("images/maps" ++ "/") ++ mapFilename fenv s,
        FileData.bin (resolvedBuf fenv s.mapImageUrl)) ∈ (createFullBackup fenv shops).2.files := by
    intro s hs
    unfold createFullBackup
    dsimp only [fsWrite]
    apply List.mem_cons_of_mem
    apply List.mem_cons_of_mem
    exact backupShops_map_file fenv shops ⟨[], []⟩ _ s hs (hattM s hs) (hmap s hs)
  have hrdL : ∀ s ∈ shops,
      logoFilename fenv s ∈ readdir (createFullBackup fenv shops).2 "images/logos" :=
    fun s hs => mem_readdir_of_mem_files (hfileL s hs)
  have hrdM : ∀ s ∈ shops,
      mapFilename fenv s ∈ readdir (createFullBackup fenv shops).2 "images/maps" :=
    fun s hs => mem_readdir_of_mem_files (hfileM s hs)
  have hreadL : ∀ f ∈ readdir (createFullBackup fenv shops).2 "images/logos",
      (fsRead (createFullBackup fenv shops).2 ("images/logos" ++ "/" ++ f)).isSome = true :=
    fun f hf => readdir_readable _ "images/logos" f hf
  have hreadM : ∀ f ∈ readdir (createFullBackup fenv shops).2 "images/maps",
      (fsRead (createFullBackup fenv shops).2 ("images/maps" ++ "/" ++ f)).isSome = true :=
    fun f hf => readdir_readable _ "images/maps" f hf
  have hdirL : directoryExists (createFullBackup fenv shops).2 "images/logos" = true := by
    unfold directoryExists
    rw [createFullBackup_dirs]
    decide
  have hdirM : directoryExists (createFullBackup fenv shops).2 "images/maps" = true := by
    unfold directoryExists
    rw [createFullBackup_dirs]
    decide
  have hmapL : ∀ s ∈ shops, ∃ v,
      (uploadImagesFromBackup uenv (createFullBackup fenv shops).2).imageMapping.lookup
        ("images/logos/" ++ logoFilename fenv s) = some v := by
    intro s hs
    apply exists_lookup_of_mem_keys
    unfold uploadImagesFromBackup
    rw [if_pos hdirL]
    dsimp only
    rw [if_pos hdirM]
    apply uploadLoop_mapping_mono
    dsimp only
    exact uploadLoop_mapping_complete uenv _ "images/logos" "logo" "images/logos/" hup
      _ _ (logoFilename fenv s) (hrdL s hs) hreadL
  have hmapM : ∀ s ∈ shops, ∃ v,
      (uploadImagesFromBackup uenv (createFullBackup fenv shops).2).imageMapping.lookup
        ("images/maps/" ++ mapFilename fenv s) = some v := by
    intro s hs
    apply exists_lookup_of_mem_keys
    unfold uploadImagesFromBackup
    rw [if_pos hdirL]
    dsimp only
    rw [if_pos hdirM]
    exact uploadLoop_mapping_complete uenv _ "images/maps" "map" "images/maps/" hup
      _ _ (mapFilename fenv s) (hrdM s hs) hreadM
  have hvals : ∀ e ∈ (uploadImagesFromBackup uenv (createFullBackup fenv shops).2).imageMapping,
      ∃ k, e.2 = extractObjectPathFromUrl (uenv.uploadURL k) := by
    intro e he
    unfold uploadImagesFromBackup at he
    rw [if_pos hdirL] at he
    dsimp only at he
    rw [if_pos hdirM] at he
    rcases uploadLoop_mapping_values uenv _ "images/maps" "map" "images/maps/" _ _ e he
      with h | h
    · dsimp only at h
      rcases uploadLoop_mapping_values uenv _ "images/logos" "logo" "images/logos/" _ _ e h
        with h2 | h2
      · simp at h2
      · exact h2
    · exact h
  have hupd : ∀ s ∈ shops, ∃ vL vM,
      updateShopMap (createFullBackup fenv shops).1
          (uploadImagesFromBackup uenv (createFullBackup fenv shops).2).imageMapping
          (updateShopLogo (createFullBackup fenv shops).1
            (uploadImagesFromBackup uenv (createFullBackup fenv shops).2).imageMapping s)
        = { s with logo := vL, mapImageUrl := vM } ∧
      (∃ k, vL = extractObjectPathFromUrl (uenv.uploadURL k)) ∧
      (∃ k, vM = extractObjectPathFromUrl (uenv.uploadURL k)) := by
    intro s hs
    obtain ⟨vL, hvL⟩ := hmapL s hs
    obtain ⟨vM, hvM⟩ := hmapM s hs
    obtain ⟨kL, hkL⟩ := hvals _ (mem_of_lookup_eq_some hvL)
    obtain ⟨kM, hkM⟩ := hvals _ (mem_of_lookup_eq_some hvM)
    have hvL0 : vL ≠ "" := by
      show ("images/logos/" ++ logoFilename fenv s, vL).2 ≠ ""
      rw [hkL]
      obtain ⟨x, hx⟩ := extractObjectPathFromUrl_shape (uenv.uploadURL kL)
      rw [hx]
      exact strAppend_ne_empty _ _ (by decide)
    have hvM0 : vM ≠ "" := by
      show ("images/maps/" ++ mapFilename fenv s, vM).2 ≠ ""
      rw [hkM]
      obtain ⟨x, hx⟩ := extractObjectPathFromUrl_shape (uenv.uploadURL kM)
      rw [hx]
      exact strAppend_ne_empty _ _ (by decide)
    refine ⟨vL, vM, ?_, ⟨kL, hkL⟩, ⟨kM, hkM⟩⟩
    rw [updateShopLogo_rewrites _ _ s _ vL (hid0 s hs) (hlookL s hs)
      (strAppend_ne_empty _ _ (by decide)) hvL hvL0]
    exact updateShopMap_rewrites _ _ _ _ vM (hid0 s hs) (hlookM s hs)
      (strAppend_ne_empty _ _ (by decide)) hvM hvM0
  rcases restoreShops_allok ienv hins
    (updateShopImageUrls (createFullBackup fenv shops).1
      (uploadImagesFromBackup uenv (createFullBackup fenv shops).2).imageMapping) 0
    with ⟨hr1, hr2, _, hr4⟩
  have hlen : (updateShopImageUrls (createFullBackup fenv shops).1
      (uploadImagesFromBackup uenv (createFullBackup fenv shops).2).imageMapping).length
      = shops.length := by
    unfold updateShopImageUrls
    rw [List.length_map]
    rfl
  unfold roundtripRun restoreFromZip
  dsimp only
  rw [createFullBackup_parse ⟨.ok (createFullBackup fenv shops).2, pO, uenv, ienv⟩ fenv shops]
  dsimp only
  refine ⟨rfl, ?_, ?_, ?_⟩
  · rw [hr1, hlen]
  · rw [hr2, hlen]
  · intro j hj
    have hj2 : j < (updateShopImageUrls (createFullBackup fenv shops).1
        (uploadImagesFromBackup uenv (createFullBackup fenv shops).2).imageMapping).length := by
      rw [hlen]
      exact hj
    rw [hr4 j hj2]
    have hsmem : shops.getD j dfltShop ∈ shops := by
      rw [List.getD_eq_getElem shops dfltShop (by exact hj)]
      exact List.getElem_mem _
    have hel : (updateShopImageUrls (createFullBackup fenv shops).1
        (uploadImagesFromBackup uenv (createFullBackup fenv shops).2).imageMapping).getD j
          dfltShop
        = updateShopMap (createFullBackup fenv shops).1
            (uploadImagesFromBackup uenv (createFullBackup fenv shops).2).imageMapping
            (updateShopLogo (createFullBackup fenv shops).1
              (uploadImagesFromBackup uenv (createFullBackup fenv shops).2).imageMapping
              (shops.getD j dfltShop)) := by
      unfold updateShopImageUrls
      exact getD_map_lt _ (createFullBackup fenv shops).1.shops j hj dfltShop dfltShop
    rw [hel]
    obtain ⟨vL, vM, heq, ⟨kL, hkL⟩, ⟨kM, hkM⟩⟩ := hupd (shops.getD j dfltShop) hsmem
    rw [heq]
    obtain ⟨xL, hxL⟩ := extractObjectPathFromUrl_shape (uenv.uploadURL kL)
    obtain ⟨xM, hxM⟩ := extractObjectPathFromUrl_shape (uenv.uploadURL kM)
    refine ⟨?_, ?_, ?_, ?_, ?_, rfl⟩
    · show jsStartsWith vL "/objects/uploads/" = true
      rw [hkL, hxL]
      exact jsStartsWith_append _ _
    · show vL ≠ (shops.getD j dfltShop).logo
      rw [hkL]
      exact (hfreshRef kL _ hsmem).1
    · show jsStartsWith vM "/objects/uploads/" = true
      rw [hkM, hxM]
      exact jsStartsWith_append _ _
    · show vM ≠ (shops.getD j dfltShop).mapImageUrl
      rw [hkM]
      exact (hfreshRef kM _ hsmem).2
    · show ienv.freshId (0 + j) ≠ (shops.getD j dfltShop).id
      exact hfreshId (0 + j) _ hsmem

/-- C1 witness: the round trip on the concrete one-record set restores
exactly one record. -/
theorem C1_roundtrip_witness :
    (roundtripRun c1FetchEnv c1UploadEnv c1InsertEnv (fun _ => none)
      c1Shops).result.stats.shopsRestored = 1 :=
  (C1_roundtrip c1FetchEnv c1UploadEnv c1InsertEnv (fun _ => none) c1Shops
    (by decide) (by decide) (by decide) (by decide)
    (fun _ => rfl) (fun _ => rfl)
    (fun _ s hs => by
      simp only [c1Shops, List.mem_singleton] at hs
      subst hs
      refine ⟨?_, ?_⟩
      · show extractObjectPathFromUrl "https://st.example/b/obj77" ≠ "/objects/old-logo.png"
        decide
      · show extractObjectPathFromUrl "https://st.example/b/obj77"
          ≠ "http://img.example/map.png"
        decide)
    (fun _ s hs => by
      simp only [c1Shops, List.mem_singleton] at hs
      subst hs
      show "fresh" ≠ "a"
      decide)).2.1

end Backup
